import Mathlib

/-!
Shallow embedding of the Knockout Whist server (Python sources under
`src/knockout_whist/`) and verification of its specification claims.

Conventions of the embedding:
* Python `int` is `Int`; list indices are `Nat`.
* Python object identity is modelled by explicit numeric ids: player objects
  carry a `pid`, physical card objects in hands and tricks carry a `cid`
  allocated from a per-game counter (`nextCid`), mirroring the fact that the
  CPython runtime never aliases two distinct live card objects.
* `raise GameError(msg)` is modelled by `Except String` / `Option String`
  carrying the message; control flow that would escape a function as an
  uncaught non-`GameError` exception is modelled explicitly where a claim
  depends on it.
* Network sends (`ws.send_json`, `broadcast`) are I/O and carry no game
  state; they are dropped from the state-transition functions, except that
  the payload of the `gameOver` broadcast (the winner) is returned where a
  claim mentions it.
-/

/-- A playing card: `models/card.py`, `Card(suit, rank)`.  The suit is the
single character following the rank in the textual form; the rank is a
Python `int` (the parser performs no range check, so any `Int` can occur). -/
structure Card where
  suit : Char
  rank : Int
  deriving DecidableEq

/-- Checker for the digit part of a Python `int()` literal after the optional
sign: a nonempty digit string in which single underscores may separate
digits (`goDigits` handles the tail after the first digit). -/
def goDigits : List Char → Bool
  | [] => true
  | c :: rest =>
    if c.isDigit then goDigits rest
    else if c = '_' then
      match rest with
      | [] => false
      | d :: r2 => d.isDigit && goDigits r2
    else false

/-- The whole digit part: first character must be a digit. -/
def validDigits : List Char → Bool
  | [] => false
  | c :: rest => c.isDigit && goDigits rest

/-- Numeric value of a digit-and-underscore string (underscores skipped). -/
def digitsValue (l : List Char) : Int :=
  l.foldl (fun acc c => if c.isDigit then acc * 10 + (c.toNat - '0'.toNat : Nat) else acc) 0

/-- Python `str.strip()` on a character list: drop whitespace from both
ends. -/
def stripChars (l : List Char) : List Char :=
  ((l.dropWhile Char.isWhitespace).reverse.dropWhile Char.isWhitespace).reverse

/-- Python `int(s)` on the characters of `s`: strip surrounding whitespace,
allow one optional sign, then a digit string with single underscores between
digits.  Returns `none` where Python raises `ValueError`.  (Non-ASCII digits
are not modelled.) -/
def pyIntOfChars (s : List Char) : Option Int :=
  match stripChars s with
  | '+' :: rest => if validDigits rest then some (digitsValue rest) else none
  | '-' :: rest => if validDigits rest then some (-(digitsValue rest)) else none
  | l => if validDigits l then some (digitsValue l) else none

/-- The rank of a rank string: `int(rank_str)` if that succeeds, otherwise the
lookup in `{"J": 11, "Q": 12, "K": 13, "A": 14}`; `none` models the
`ValueError`-then-`KeyError` path of `Card.from_string`. -/
def rankOfChars (s : List Char) : Option Int :=
  match pyIntOfChars s with
  | some n => some n
  | none =>
    if s = ['J'] then some 11
    else if s = ['Q'] then some 12
    else if s = ['K'] then some 13
    else if s = ['A'] then some 14
    else none

/-- `Card.from_string` on the character list of the input:
`rank_str = card_str[:-1]`, `suit = card_str[-1]`; `none` models the
uncaught exception on the empty string (`IndexError`) or an unparseable rank
part (`KeyError`). -/
def fromChars (l : List Char) : Option Card :=
  match l.getLast? with
  | none => none
  | some suit =>
    match rankOfChars l.dropLast with
    | some r => some ⟨suit, r⟩
    | none => none

/-- `Card.from_string` (`models/card.py`). -/
def fromString (s : String) : Option Card :=
  fromChars s.toList

/-- Python `max(iterable, key=key)` over a nonempty list, written as the fold
that CPython performs: scan left to right, replace the best element only on a
strictly greater key, so the earliest of key-tied elements is kept. -/
def pyFoldMax {α K : Type} [LinearOrder K] (key : α → K) (b : α) : List α → α
  | [] => b
  | y :: ys => pyFoldMax key (if key b < key y then y else b) ys

/-- Python `min(iterable, key=key)` over a nonempty list: replace only on a
strictly smaller key, keeping the earliest of key-tied elements. -/
def pyFoldMin {α K : Type} [LinearOrder K] (key : α → K) (b : α) : List α → α
  | [] => b
  | y :: ys => pyFoldMin key (if key y < key b then y else b) ys

/-- A trick's ordered play list (`models/trick.py`): pairs of the playing
player (by id) and the card played. -/
def Trick := List (Nat × Card)

instance : DecidableEq Trick := by
  unfold Trick
  infer_instance

/-- `Trick.led_suit`: suit of the first play, `None` when the trick is empty. -/
def ledSuit (t : Trick) : Option Char :=
  match t with
  | [] => none
  | p :: _ => some p.2.suit

/-- Python `list.index(a)`: position of the first element equal to `a`
(`determine_winner` only ever queries elements of the list, so the
out-of-list case never arises there). -/
def pyIndex (a : Nat × Card) : List (Nat × Card) → Nat
  | [] => 0
  | x :: xs => if x = a then 0 else pyIndex a xs + 1

/-- The sort key used by `Trick.determine_winner`: Python's tuple
`(card.suit == trump_suit, card.suit == self.led_suit, card.rank,
-self.plays.index(play))` compared lexicographically.  `trump` is the
`trump_suit` argument (an `Optional[str]` at the call site). -/
def winnerKey (trump : Option Char) (t : Trick) (pl : Nat × Card) :
    Bool ×ₗ Bool ×ₗ Int ×ₗ Int :=
  toLex ((some pl.2.suit == trump),
    toLex ((some pl.2.suit == ledSuit t),
      toLex (pl.2.rank, -(pyIndex pl t : Int))))

/-- `Trick.determine_winner(trump_suit)`: `max(self.plays, key=...)[0]`.
Returns `none` for the empty trick, where Python `max` raises. -/
def determineWinner (trump : Option Char) (t : Trick) : Option Nat :=
  match t with
  | [] => none
  | x :: xs => some (pyFoldMax (winnerKey trump t) x xs).1

/-- The specification's lexicographic key for position `j` of the trick:
`(card.suit == trump, card.suit == led_suit, card.rank, -position_in_trick)`. -/
def specKey (trump : Char) (t : Trick) (j : Fin (List.length t)) :
    Bool ×ₗ Bool ×ₗ Int ×ₗ Int :=
  toLex ((some (t.get j).2.suit == some trump),
    toLex ((some (t.get j).2.suit == ledSuit t),
      toLex ((t.get j).2.rank, -(j : Int))))

/-! ### The AI decision policy (`ai/game_ai.py`) -/

/-- `GameAI._card_beats(card1, card2, trump_suit)`. -/
def cardBeats (c1 c2 : Card) (trump : Char) : Bool :=
  if c1.suit == trump && c2.suit != trump then true
  else if c2.suit == trump && c1.suit != trump then false
  else if c1.suit != c2.suit then false
  else decide (c2.rank < c1.rank)

/-- `GameAI._get_current_winning_card(trick, trump_suit)`: start from the led
card and fold `_card_beats` left to right over the later plays. -/
def currentWinningCard (t : Trick) (trump : Char) : Option Card :=
  match t with
  | [] => none
  | p :: rest =>
    some (rest.foldl (fun w q => if cardBeats q.2 w trump then q.2 else w) p.2)

/-- `GameAI._get_playable_cards(current_trick)`: the whole hand when leading,
otherwise the led-suit cards if any, otherwise the whole hand. -/
def playableCards (hand : List Card) (t : Trick) : List Card :=
  match t with
  | [] => hand
  | _ =>
    let sameSuit := hand.filter (fun c => some c.suit == ledSuit t)
    if sameSuit.isEmpty then hand else sameSuit

/-- Non-trump cards of the hand (`non_trump_cards` in `_lead_card`). -/
def nonTrumpCards (hand : List Card) (trump : Char) : List Card :=
  hand.filter (fun c => c.suit != trump)

/-- Non-trump cards of rank at least 12 (`high_cards` in `_lead_card`). -/
def highLeadCards (hand : List Card) (trump : Char) : List Card :=
  (nonTrumpCards hand trump).filter (fun c => 12 ≤ c.rank)

/-- `GameAI._lead_card(trump_suit)`; `none` only on the empty hand where
Python `min`/`max` would raise. -/
def leadCard (hand : List Card) (trump : Char) : Option Card :=
  match highLeadCards hand trump with
  | h :: hs => some (pyFoldMax (fun c : Card => c.rank) h hs)
  | [] =>
    match nonTrumpCards hand trump with
    | h :: hs => some (pyFoldMin (fun c : Card => c.rank) h hs)
    | [] =>
      match hand with
      | h :: hs => some (pyFoldMin (fun c : Card => c.rank) h hs)
      | [] => none

/-- `GameAI._follow_card(playable_cards, current_trick, trump_suit)`. -/
def followCard (playable : List Card) (t : Trick) (trump : Char) : Option Card :=
  match currentWinningCard t trump with
  | none => none
  | some w =>
    match playable.filter (fun c => cardBeats c w trump) with
    | h :: hs => some (pyFoldMin (fun c : Card => c.rank) h hs)
    | [] =>
      match playable with
      | h :: hs => some (pyFoldMin (fun c : Card => c.rank) h hs)
      | [] => none

/-- `GameAI.choose_card(current_trick, trump_suit)`. -/
def chooseCard (hand : List Card) (t : Trick) (trump : Char) : Option Card :=
  match t with
  | [] => leadCard hand trump
  | _ => followCard (playableCards hand t) t trump

/-- The per-suit score of `GameAI.choose_trump`:
`count(hand, suit) * 10 + sum of ranks of that suit`. -/
def suitScore (hand : List Card) (s : Char) : Int :=
  ((hand.filter (fun c => c.suit == s)).length : Int) * 10 +
    (hand.filter (fun c => c.suit == s)).foldl (fun a c => a + c.rank) 0

/-- The suit iteration order of `choose_trump`'s dictionaries (built by
comprehension over the string `"♠♥♦♣"`, so insertion order S, H, D, C). -/
def suitOrder : List Char := ['♠', '♥', '♦', '♣']

/-- `GameAI.choose_trump()`: `max(suit_scores.items(), key=lambda x: x[1])[0]`
over the items in suit iteration order. -/
def chooseTrump (hand : List Card) : Char :=
  (pyFoldMax (fun x : Char × Int => x.2) ('♠', suitScore hand '♠')
    [('♥', suitScore hand '♥'), ('♦', suitScore hand '♦'),
     ('♣', suitScore hand '♣')]).1

/-- The beats relation as worded in the specification: trump beats non-trump,
same suit compares by rank, otherwise no beat. -/
def specBeats (trump : Char) (c d : Card) : Prop :=
  (c.suit = trump ∧ d.suit ≠ trump) ∨ (c.suit = d.suit ∧ d.rank < c.rank)

instance (trump : Char) (c d : Card) : Decidable (specBeats trump c d) := by
  unfold specBeats
  infer_instance

/-! ### The room engine (`server/game_server.py`) -/

/-- A physical card object: the card value together with an allocation id
modelling CPython object identity (two cards from different decks compare
equal by value but are distinct objects). -/
structure PCard where
  cid : Nat
  card : Card
  deriving DecidableEq

/-- A participant (`models/player.py` `Player` dataclass): identified by
`pid` (object identity; in practice the display name is unique), with the
`is_ai` tag distinguishing `AIPlayer` from `HumanPlayer`. -/
structure PlayerR where
  pid : Nat
  isAI : Bool
  hand : List PCard
  tricksWon : Nat
  deriving DecidableEq

/-- The four room phases of `GameState`. -/
inductive Phase where
  | waiting
  | callingTrumps
  | playing
  | finished
  deriving DecidableEq

/-- The per-room state (`Game.__init__`), plus `nextCid`, the allocation
counter modelling object identity of card objects. -/
structure Game where
  players : List PlayerR
  spectators : List PlayerR
  state : Phase
  currentRound : Nat
  trumpSuit : Option Char
  currentTrick : List (Nat × PCard)
  currentPlayer : Option Nat
  trickStarter : Option Nat
  trumpCaller : Option Nat
  nextCid : Nat
  deriving DecidableEq

/-- A fresh room (`Game(code)`). -/
def initGame : Game :=
  { players := [], spectators := [], state := .waiting, currentRound := 7,
    trumpSuit := none, currentTrick := [], currentPlayer := none,
    trickStarter := none, trumpCaller := none, nextCid := 0 }

/-- `led_suit` of the live trick (whose plays carry `PCard`s). -/
def ledSuitP (t : List (Nat × PCard)) : Option Char :=
  match t with
  | [] => none
  | p :: _ => some p.2.card.suit

/-- Python `list.index` as used by `next_player`: position of the first
element equal to the argument, `none` on `ValueError`. -/
def pyFind (q : PlayerR) : List PlayerR → Option Nat
  | [] => none
  | x :: xs => if x = q then some 0 else (pyFind q xs).map (fun i => i + 1)

/-- `Game.next_player(current)`: index of `current` in `players`, plus one
modulo the length; on `ValueError` (player absent) fall back to the first
player; `None` when there are no players. -/
def nextPlayer (players : List PlayerR) (cur : PlayerR) : Option PlayerR :=
  if players.isEmpty then none
  else
    match pyFind cur players with
    | some i => players.get? ((i + 1) % players.length)
    | none => players.head?

/-- `Game.validate_play(player, card)`: the five legality checks in source
order, returning the `GameError` message of the first failing check. -/
def validatePlay (g : Game) (p : PlayerR) (c : Card) : Option String :=
  if g.state ≠ Phase.playing then some "Not time to play"
  else if g.currentPlayer ≠ some p.pid then some "Not your turn"
  else if g.currentTrick.any (fun pl => pl.1 == p.pid) then some "Already played this round"
  else if ¬ (p.hand.any (fun h => h.card.suit == c.suit && h.card.rank == c.rank)) then
    some "Card not in hand"
  else if ¬ g.currentTrick.isEmpty ∧ ¬ p.hand.isEmpty ∧
      (p.hand.any (fun h => some h.card.suit == ledSuitP g.currentTrick)) ∧
      some c.suit ≠ ledSuitP g.currentTrick then
    some "Must follow suit"
  else none

/-- The hand-mutation loop of `Game.play_card`: pop the first card matching
`(suit, rank)`; when nothing matches the loop falls through and the hand is
unchanged. -/
def removeFirstCard (hand : List PCard) (c : Card) : List PCard :=
  match hand with
  | [] => []
  | h :: t =>
    if h.card.suit == c.suit && h.card.rank == c.rank then t
    else h :: removeFirstCard t c

/-- The state mutation of `Game.play_card(player, card_str)` after the card
string has been parsed: validate, pop one matching card from the player's
hand, append a play to the trick (the parsed card is a fresh object, hence
the fresh `cid`), and advance `current_player` one rotation step.  Python
mutates the player object in place, so every list position holding that
object (same `pid`) sees the new hand.  The subsequent trick-completion /
AI cascade is `handleTrickCompletion` / `handleRoundEnd` below, as in the
source. -/
def playCardStep (g : Game) (p : PlayerR) (c : Card) : Except String Game :=
  match validatePlay g p c with
  | some e => Except.error e
  | none =>
    let p2 : PlayerR := { p with hand := removeFirstCard p.hand c }
    let players2 := g.players.map (fun q => if q.pid = p.pid then p2 else q)
    let trick2 := g.currentTrick ++ [(p.pid, ⟨g.nextCid, c⟩)]
    Except.ok { g with
      players := players2,
      spectators := g.spectators.map (fun q => if q.pid = p.pid then p2 else q),
      currentTrick := trick2,
      currentPlayer := (nextPlayer players2 p2).map (fun q => q.pid),
      nextCid := g.nextCid + 1 }

/-- The players/spectators effect of `Game.move_to_spectator(player)`:
remove the player from `players` (first occurrence, as `list.remove`), and
append to `spectators` only when the player is a `HumanPlayer`. -/
def mtsCore (ps : List PlayerR × List PlayerR) (p : PlayerR) :
    List PlayerR × List PlayerR :=
  if p ∈ ps.1 then
    (ps.1.erase p, if p.isAI then ps.2 else ps.2 ++ [p])
  else ps

/-- `Game.move_to_spectator` on the full game state (the two `send_json`
calls to the eliminated player are I/O). -/
def moveToSpectator (g : Game) (p : PlayerR) : Game :=
  { g with
    players := (mtsCore (g.players, g.spectators) p).1,
    spectators := (mtsCore (g.players, g.spectators) p).2 }

/-- Python `max(p.tricks_won for p in players)` over a nonempty list. -/
def pyMaxNat : List Nat → Nat
  | [] => 0
  | h :: t => t.foldl max h

/-- `Game.handle_round_end()` up to (but not including) the recursive call
into `start_trump_selection`.  `choice` parametrises `random.choice` over
the tied top scorers (taken modulo their number, so every `choice` denotes a
valid pick).  The second component is the winner announced in the `gameOver`
broadcast, when one is sent. -/
def handleRoundEnd (g : Game) (choice : Nat) : Game × Option Nat :=
  let eliminated := g.players.filter (fun p => p.tricksWon == 0)
  let g1 := eliminated.foldl moveToSpectator g
  if g1.players.length ≤ 1 ∨ g.currentRound ≤ 1 then
    ({ g1 with state := .finished }, (g1.players.head?).map (fun p => p.pid))
  else
    let maxT := pyMaxNat (g1.players.map (fun p => p.tricksWon))
    let choosers := g1.players.filter (fun p => p.tricksWon == maxT)
    let caller := choosers.getD (choice % choosers.length) ⟨0, false, [], 0⟩
    ({ g1 with
        currentRound := g.currentRound - 1,
        trumpSuit := none,
        currentPlayer := some caller.pid,
        trickStarter := some caller.pid,
        trumpCaller := some caller.pid }, none)

/-- `Game.reset_game()` (the `playAgain` handler): spectators rejoin the end
of `players`, hands and trick counts are cleared, all round state returns to
the `WAITING` defaults. -/
def resetGame (g : Game) : Game :=
  { g with
    currentRound := 7, trumpSuit := none, currentTrick := [],
    currentPlayer := none, trickStarter := none, trumpCaller := none,
    state := .waiting,
    players := (g.players ++ g.spectators).map
      (fun p => { p with hand := [], tricksWon := 0 }),
    spectators := [] }

/-- Wrap a run of freshly drawn card values as fresh card objects with
consecutive allocation ids. -/
def assignCids (cid : Nat) : List Card → List PCard
  | [] => []
  | c :: cs => ⟨cid, c⟩ :: assignCids (cid + 1) cs

/-- The dealing loop of `Game.deal_cards`: each player in list order draws
`n` cards from the deck, each drawn card being a fresh object (fresh `cid`),
and has `tricks_won` reset to 0.  (`sort_hand` then permutes each hand for
display; the permutation is omitted as no claim concerns hand order.)
Returns the new player list and the advanced allocation counter. -/
def dealHands (cid : Nat) (n : Nat) (deck : List Card) :
    List PlayerR → List PlayerR × Nat
  | [] => ([], cid)
  | p :: rest =>
    let r := dealHands (cid + n) n (deck.drop n) rest
    ({ p with hand := assignCids cid (deck.take n), tricksWon := 0 } :: r.1, r.2)

/-- `Game.deal_cards()` given the shuffled multi-deck `deck` (the shuffle is
the injected randomness): raises `GameError` leaving the state unchanged
when the deck is too small, otherwise deals `current_round` cards to every
active player. -/
def dealCards (g : Game) (deck : List Card) : Game :=
  if deck.length < g.currentRound * g.players.length then g
  else
    let r := dealHands g.nextCid g.currentRound deck g.players
    { g with players := r.1, nextCid := r.2 }

/-- `Game.start_trump_selection()`: enter `CALLING_TRUMPS`, deal, and on
round 7 pick a random trump (`tc`) and random starting player (`sc`, modulo
the player count) and enter `PLAYING` via `start_round` (which also resets
the trick).  On later rounds wait for the trump caller. -/
def startTrumpSelection (g : Game) (deck : List Card) (tc : Char) (sc : Nat) : Game :=
  let g1 := dealCards { g with state := .callingTrumps } deck
  if g1.currentRound == 7 then
    match g1.players.get? (sc % g1.players.length) with
    | none => g1
    | some st =>
      { g1 with
          trumpSuit := some tc, state := .playing, currentTrick := [],
          currentPlayer := some st.pid, trickStarter := some st.pid }
  else g1

/-- `Game.handle_trump_selection(player, suit)` followed by `start_round`:
phase, caller and suit checks, then trump is set and play begins with the
trick starter (the trick is reset by `start_round`). -/
def handleTrumpSelection (g : Game) (p : PlayerR) (suit : Char) :
    Except String Game :=
  if g.state ≠ Phase.callingTrumps then Except.error "Not time to call trumps"
  else if g.trumpCaller ≠ some p.pid then Except.error "Not your turn to call trumps"
  else if ¬ (suit ∈ ['♠', '♥', '♦', '♣']) then Except.error "Invalid suit"
  else Except.ok { g with
    trumpSuit := some suit, state := .playing,
    currentTrick := [], currentPlayer := g.trickStarter }

/-- `Game.handle_trick_completion()` up to the hands-empty check: the trick
winner (an in-place `tricks_won` increment on the winning object, i.e. on
every list position with that `pid`) leads the next trick, and the trick is
reset.  The follow-up (`handle_round_end` when all hands are empty) is a
separate transition. -/
def handleTrickCompletion (g : Game) : Game :=
  match determineWinner g.trumpSuit (g.currentTrick.map (fun pl => (pl.1, pl.2.card))) with
  | none => g
  | some wpid =>
    { g with
      players := g.players.map
        (fun q => if q.pid = wpid then { q with tricksWon := q.tricksWon + 1 } else q),
      currentPlayer := some wpid, trickStarter := some wpid, currentTrick := [] }

/-- Result of handling one already-resolved client message in
`GameServer.handle_connection` for a socket bound to a room participant. -/
inductive Outcome where
  | errorReply (msg : String)
  | applied
  | noReply
  | crashed
  deriving DecidableEq

/-- One incoming frame on a socket that is already bound to a participant of
a room, as seen by the dispatch loop of `GameServer.handle_connection`:
either `json.loads` failed, or the decoded object's `type` is none of the
handled ones, or it is one of the in-game messages.  (`create`, `join`,
`reconnect` and `addAI` go through the registry and are outside the claims
modelled here.) -/
inductive ClientMsg where
  | malformedJson
  | unknownType
  | playCardMsg (card : String)
  | callTrumpsMsg (suit : Char)
  | playAgainMsg
  deriving DecidableEq

/-- The dispatch boundary of `GameServer.handle_connection` for one message
from participant `p` of room `g`.  Only `GameError` raised by the four
in-game handlers is caught and answered with `{type:"error"}`; `json.loads`
failures and the `KeyError`/`IndexError` from `Card.from_string` propagate
out of the handler (`crashed`: the connection handler unwinds and the
connection is torn down without a reply), and a message whose `type` matches
no branch falls through the `if`/`elif` chain silently (`noReply`). -/
def dispatchMessage (g : Game) (p : PlayerR) (m : ClientMsg) : Outcome × Game :=
  match m with
  | .malformedJson => (.crashed, g)
  | .unknownType => (.noReply, g)
  | .playCardMsg s =>
    match fromString s with
    | none => (.crashed, g)
    | some c =>
      match playCardStep g p c with
      | .error e => (.errorReply e, g)
      | .ok g2 => (.applied, g2)
  | .callTrumpsMsg suit =>
    match handleTrumpSelection g p suit with
    | .error e => (.errorReply e, g)
    | .ok g2 => (.applied, g2)
  | .playAgainMsg => (.applied, resetGame g)

/-- One public state transition of a room: the operations reachable from the
network (joining / adding a player while waiting, starting a round, trump
selection, playing a card, trick completion, round end, play-again). -/
inductive Step : Game → Game → Prop where
  | addPlayer (g : Game) (p : PlayerR) (hp : p.hand = []) :
      Step g { g with players := g.players ++ [p] }
  | startSel (g : Game) (deck : List Card) (tc : Char) (sc : Nat) :
      Step g (startTrumpSelection g deck tc sc)
  | callTrumps (g : Game) (p : PlayerR) (suit : Char) (g2 : Game)
      (h : handleTrumpSelection g p suit = .ok g2) : Step g g2
  | play (g : Game) (p : PlayerR) (c : Card) (g2 : Game)
      (hp : p ∈ g.players) (h : playCardStep g p c = .ok g2) : Step g g2
  | trickComplete (g : Game) : Step g (handleTrickCompletion g)
  | roundEnd (g : Game) (choice : Nat) : Step g (handleRoundEnd g choice).1
  | reset (g : Game) : Step g (resetGame g)

deriving instance DecidableEq for Except

/-- Concrete two-player room used to instantiate frame-condition theorems. -/
def wP4 : PlayerR := ⟨1, false, [⟨0, ⟨'♠', 10⟩⟩, ⟨1, ⟨'♥', 11⟩⟩], 0⟩

/-- Second player of the concrete room. -/
def wQ4 : PlayerR := ⟨2, false, [⟨2, ⟨'♠', 12⟩⟩], 0⟩

/-- Concrete mid-play room: player 1 to play into an empty trick. -/
def wGame4 : Game :=
  { players := [wP4, wQ4], spectators := [], state := .playing,
    currentRound := 7, trumpSuit := some '♠', currentTrick := [],
    currentPlayer := some 1, trickStarter := some 1, trumpCaller := none,
    nextCid := 3 }

/-- The room after player 1 plays the ten of spades in `wGame4`. -/
def wGame4x : Game :=
  { players := [⟨1, false, [⟨1, ⟨'♥', 11⟩⟩], 0⟩, wQ4], spectators := [],
    state := .playing, currentRound := 7, trumpSuit := some '♠',
    currentTrick := [(1, ⟨3, ⟨'♠', 10⟩⟩)],
    currentPlayer := some 2, trickStarter := some 1, trumpCaller := none,
    nextCid := 4 }

/-- Concrete three-player round-end scenario (S5): tricks 4, 3, 0. -/
def wGame3 : Game :=
  { players := [⟨1, false, [], 4⟩, ⟨2, false, [], 3⟩, ⟨3, false, [], 0⟩],
    spectators := [], state := .playing, currentRound := 7,
    trumpSuit := some '♠', currentTrick := [], currentPlayer := some 1,
    trickStarter := some 1, trumpCaller := none, nextCid := 0 }

/-- Concrete room with an AI player about to be eliminated. -/
def wGame10 : Game :=
  { players := [⟨1, false, [], 2⟩, ⟨9, true, [], 0⟩],
    spectators := [⟨5, false, [], 0⟩], state := .playing, currentRound := 5,
    trumpSuit := some '♦', currentTrick := [], currentPlayer := some 1,
    trickStarter := some 1, trumpCaller := none, nextCid := 0 }

/-- Room states reachable from a fresh room through the public operations. -/
inductive Reachable : Game → Prop where
  | init : Reachable initGame
  | step {g g2 : Game} : Reachable g → Step g g2 → Reachable g2

/-- All participants of a room (players and spectators). -/
def participants (g : Game) : List PlayerR :=
  g.players ++ g.spectators

/-- The claimed invariant: no card object in the current trick is
simultaneously in any participant's hand (identity of card objects is their
`cid`). -/
def TrickHandDisjoint (g : Game) : Prop :=
  ∀ pl ∈ g.currentTrick, ∀ p ∈ participants g, ∀ hc ∈ p.hand,
    pl.2.cid ≠ hc.cid

/-- Book-keeping invariant: every card object appearing in a hand or in the
trick was allocated below the allocation counter. -/
def CidsFresh (g : Game) : Prop :=
  (∀ pl ∈ g.currentTrick, pl.2.cid < g.nextCid) ∧
  (∀ p ∈ participants g, ∀ hc ∈ p.hand, hc.cid < g.nextCid)

/-! ## Helper lemmas -/

theorem pyFoldMax_spec {α K : Type} [LinearOrder K] (key : α → K) (l : List α) :
    ∀ b : α, ∃ i, ∃ h : i < (b :: l).length,
      pyFoldMax key b l = (b :: l).get ⟨i, h⟩ ∧
      (∀ j (hj : j < (b :: l).length),
        key ((b :: l).get ⟨j, hj⟩) ≤ key (pyFoldMax key b l)) ∧
      (∀ j (hj : j < (b :: l).length), j < i →
        key ((b :: l).get ⟨j, hj⟩) < key (pyFoldMax key b l)) := by
  induction l with
  | nil =>
    intro b
    refine ⟨0, by simp, rfl, ?_, ?_⟩
    · intro j hj
      have hj0 : j = 0 := by simp at hj; omega
      subst hj0
      exact le_refl _
    · intro j hj hji
      omega
  | cons y ys ih =>
    intro b
    by_cases hb : key b < key y
    · have hstep : pyFoldMax key b (y :: ys) = pyFoldMax key y ys := by
        simp [pyFoldMax, hb]
      obtain ⟨i', h', heq, hle, hlt⟩ := ih y
      refine ⟨i' + 1, by simp only [List.length_cons] at h' ⊢; omega, ?_, ?_, ?_⟩
      · rw [hstep, heq]; rfl
      · intro j hj
        rw [hstep]
        cases j with
        | zero => exact le_trans (le_of_lt hb) (hle 0 (by simp))
        | succ j => exact hle j (by simp only [List.length_cons] at hj ⊢; omega)
      · intro j hj hji
        rw [hstep]
        cases j with
        | zero => exact lt_of_lt_of_le hb (hle 0 (by simp))
        | succ j =>
          exact hlt j (by simp only [List.length_cons] at hj ⊢; omega) (by omega)
    · have hstep : pyFoldMax key b (y :: ys) = pyFoldMax key b ys := by
        simp [pyFoldMax, hb]
      obtain ⟨i', h', heq, hle, hlt⟩ := ih b
      cases i' with
      | zero =>
        refine ⟨0, by simp, ?_, ?_, ?_⟩
        · rw [hstep, heq]; rfl
        · intro j hj
          rw [hstep]
          cases j with
          | zero => exact hle 0 (by simp)
          | succ j =>
            cases j with
            | zero => exact le_trans (le_of_not_lt hb) (hle 0 (by simp))
            | succ j => exact hle (j + 1) (by simp only [List.length_cons] at hj ⊢; omega)
        · intro j hj hji
          omega
      | succ k =>
        refine ⟨k + 2, by simp only [List.length_cons] at h' ⊢; omega, ?_, ?_, ?_⟩
        · rw [hstep, heq]; rfl
        · intro j hj
          rw [hstep]
          cases j with
          | zero => exact hle 0 (by simp)
          | succ j =>
            cases j with
            | zero => exact le_trans (le_of_not_lt hb) (hle 0 (by simp))
            | succ j => exact hle (j + 1) (by simp only [List.length_cons] at hj ⊢; omega)
        · intro j hj hji
          rw [hstep]
          cases j with
          | zero => exact hlt 0 (by simp) (by omega)
          | succ j =>
            cases j with
            | zero =>
              exact lt_of_le_of_lt (le_of_not_lt hb) (hlt 0 (by simp) (by omega))
            | succ j =>
              exact hlt (j + 1) (by simp only [List.length_cons] at hj ⊢; omega) (by omega)

theorem pyFoldMax_mem {α K : Type} [LinearOrder K] (key : α → K) (l : List α)
    (b : α) : pyFoldMax key b l ∈ b :: l := by
  obtain ⟨i, h, heq, -, -⟩ := pyFoldMax_spec key l b
  rw [heq]
  exact List.get_mem _ _ _

theorem pyFoldMax_le {α K : Type} [LinearOrder K] (key : α → K) (l : List α)
    (b : α) : ∀ y ∈ b :: l, key y ≤ key (pyFoldMax key b l) := by
  obtain ⟨i, h, -, hle, -⟩ := pyFoldMax_spec key l b
  intro y hy
  obtain ⟨j, hj⟩ := List.mem_iff_get.mp hy
  subst hj
  exact hle j j.isLt

theorem pyFoldMin_mem {α K : Type} [LinearOrder K] (key : α → K) (l : List α) :
    ∀ b : α, pyFoldMin key b l ∈ b :: l := by
  induction l with
  | nil => intro b; simp [pyFoldMin]
  | cons y ys ih =>
    intro b
    have hstep : pyFoldMin key b (y :: ys) =
        pyFoldMin key (if key y < key b then y else b) ys := rfl
    rw [hstep]
    rcases List.mem_cons.mp (ih (if key y < key b then y else b)) with h | h
    · rw [h]
      by_cases hc : key y < key b
      · simp [hc]
      · simp [hc]
    · simp [h]

theorem pyFoldMin_le {α K : Type} [LinearOrder K] (key : α → K) (l : List α) :
    ∀ b : α, ∀ y ∈ b :: l, key (pyFoldMin key b l) ≤ key y := by
  induction l with
  | nil =>
    intro b y hy
    rcases List.mem_cons.mp hy with h | h
    · rw [h]; exact le_refl _
    · simp at h
  | cons z ys ih =>
    intro b y hy
    have hstep : pyFoldMin key b (z :: ys) =
        pyFoldMin key (if key z < key b then z else b) ys := rfl
    have hbase : key (pyFoldMin key (if key z < key b then z else b) ys) ≤
        key (if key z < key b then z else b) :=
      ih (if key z < key b then z else b) _ (List.mem_cons_self _ _)
    rcases List.mem_cons.mp hy with h | h
    · subst h
      rw [hstep]
      by_cases hc : key z < key y
      · simpa [hc] using le_trans hbase (by simp [hc]; exact le_of_lt hc)
      · simpa [hc] using hbase
    · rcases List.mem_cons.mp h with h2 | h2
      · subst h2
        rw [hstep]
        by_cases hc : key y < key b
        · simpa [hc] using hbase
        · exact le_trans hbase (by simp [hc]; exact le_of_not_lt hc)
      · rw [hstep]
        exact ih _ _ (List.mem_cons_of_mem _ h2)

theorem pyIndex_get (t : List (Nat × Card)) (hnd : List.Nodup t) :
    ∀ (j : Fin (List.length t)), pyIndex (t.get j) t = (j : Nat) := by
  induction t with
  | nil => intro j; exact absurd j.isLt (by simp)
  | cons x xs ih =>
    intro j
    match j with
    | ⟨0, hj⟩ => simp [pyIndex]
    | ⟨k + 1, hj⟩ =>
      have hmem : xs.get ⟨k, by simpa using hj⟩ ∈ xs := List.get_mem _ _ _
      have hne : x ≠ xs.get ⟨k, by simpa using hj⟩ := by
        intro he
        exact (List.nodup_cons.mp hnd).1 (he ▸ hmem)
      have : (x :: xs).get ⟨k + 1, hj⟩ = xs.get ⟨k, by simpa using hj⟩ := rfl
      rw [this]
      simp only [pyIndex, if_neg (Ne.symm hne ∘ Eq.symm)]
      have := ih (List.nodup_cons.mp hnd).2 ⟨k, by simpa using hj⟩
      simp [pyIndex, hne.symm] at this ⊢
      omega

theorem winnerKey_get (τ : Char) (t : Trick) (hnd : List.Nodup t)
    (j : Fin (List.length t)) :
    winnerKey (some τ) t (t.get j) = specKey τ t j := by
  unfold winnerKey specKey
  rw [pyIndex_get t hnd j]

theorem specKey_inj (τ : Char) (t : Trick) {j j' : Fin (List.length t)}
    (h : specKey τ t j = specKey τ t j') : j = j' := by
  unfold specKey at h
  simp only [toLex_inj, Prod.mk.injEq] at h
  have h4 : -(j : Int) = -(j' : Int) := h.2.2.2
  have : (j : Nat) = (j' : Nat) := by omega
  exact Fin.ext this

theorem specKey_lt_of_card_eq (τ : Char) (t : Trick) {j j' : Fin (List.length t)}
    (hc : (t.get j).2 = (t.get j').2) :
    (specKey τ t j < specKey τ t j' ↔ (j' : Nat) < (j : Nat)) := by
  unfold specKey
  rw [hc]
  simp only [Prod.Lex.lt_iff, lt_irrefl, false_or, true_and, eq_self_iff_true]
  omega

/-- C1: for every non-empty trick and every trump suit, `determine_winner`
returns the player of the play whose lexicographic key
`(card.suit == trump, card.suit == led_suit, card.rank, -position_in_trick)`
is maximal over all plays (strictly greater than every other play's key);
in particular, among plays carrying value-identical cards the earliest play
in the trick wins the tie.  The hypothesis that the plays carry pairwise
distinct players holds in every game state by the `DuplicatePlay` check. -/
theorem c1_determine_winner (τ : Char) (t : Trick)
    (hne : t ≠ []) (hds : List.Pairwise (fun a b => a.1 ≠ b.1) t) :
    ∃ i : Fin (List.length t),
      determineWinner (some τ) t = some ((t.get i).1) ∧
      (∀ j : Fin (List.length t), specKey τ t j ≤ specKey τ t i) ∧
      (∀ j : Fin (List.length t), j ≠ i → specKey τ t j < specKey τ t i) ∧
      (∀ j : Fin (List.length t), (t.get j).2 = (t.get i).2 → (i : Nat) ≤ (j : Nat)) := by
  have hnd : List.Nodup t :=
    List.Pairwise.imp (fun hab heq => hab (congrArg Prod.fst heq)) hds
  obtain ⟨x, xs, rfl⟩ : ∃ x xs, t = x :: xs := by
    cases t with
    | nil => exact absurd rfl hne
    | cons x xs => exact ⟨x, xs, rfl⟩
  obtain ⟨i, h, heq, hle, -⟩ := pyFoldMax_spec (winnerKey (some τ) (x :: xs)) xs x
  have hbound : ∀ j : Fin (List.length (x :: xs)),
      specKey τ (x :: xs) j ≤ specKey τ (x :: xs) ⟨i, h⟩ := by
    intro j
    have h1 := hle (j : Nat) j.isLt
    rw [heq] at h1
    calc specKey τ (x :: xs) j
        = winnerKey (some τ) (x :: xs) ((x :: xs).get j) :=
          (winnerKey_get τ (x :: xs) hnd j).symm
      _ ≤ winnerKey (some τ) (x :: xs) ((x :: xs).get ⟨i, h⟩) := h1
      _ = specKey τ (x :: xs) ⟨i, h⟩ := winnerKey_get τ (x :: xs) hnd ⟨i, h⟩
  have hstrict : ∀ j : Fin (List.length (x :: xs)), j ≠ ⟨i, h⟩ →
      specKey τ (x :: xs) j < specKey τ (x :: xs) ⟨i, h⟩ := by
    intro j hji
    exact lt_of_le_of_ne (hbound j) (fun he => hji (specKey_inj τ (x :: xs) he))
  refine ⟨⟨i, h⟩, ?_, hbound, hstrict, ?_⟩
  · show some (pyFoldMax (winnerKey (some τ) (x :: xs)) x xs).1 = _
    rw [heq]
  · intro j hcard
    by_contra hij
    have hji : j ≠ (⟨i, h⟩ : Fin (List.length (x :: xs))) := by
      intro he
      rw [he] at hij
      exact hij (le_refl _)
    have h2 := hstrict j hji
    rw [specKey_lt_of_card_eq τ (x :: xs) hcard] at h2
    omega

/-- Witness for C1: a two-deck tie, trump clubs, both players playing the
ace of hearts — the earliest play (player 1) wins. -/
theorem c1_determine_winner_witness :
    ((([(1, Card.mk '♥' 14), (2, Card.mk '♥' 14)] : Trick) ≠ []) ∧
      List.Pairwise (fun a b : Nat × Card => a.1 ≠ b.1)
        ([(1, Card.mk '♥' 14), (2, Card.mk '♥' 14)] : Trick)) ∧
    (∃ i : Fin (List.length ([(1, Card.mk '♥' 14), (2, Card.mk '♥' 14)] : Trick)),
      determineWinner (some '♣') [(1, Card.mk '♥' 14), (2, Card.mk '♥' 14)] =
        some ((([(1, Card.mk '♥' 14), (2, Card.mk '♥' 14)] : Trick).get i).1) ∧
      (∀ j, specKey '♣' [(1, Card.mk '♥' 14), (2, Card.mk '♥' 14)] j ≤
        specKey '♣' [(1, Card.mk '♥' 14), (2, Card.mk '♥' 14)] i) ∧
      (∀ j, j ≠ i → specKey '♣' [(1, Card.mk '♥' 14), (2, Card.mk '♥' 14)] j <
        specKey '♣' [(1, Card.mk '♥' 14), (2, Card.mk '♥' 14)] i) ∧
      (∀ j, (([(1, Card.mk '♥' 14), (2, Card.mk '♥' 14)] : Trick).get j).2 =
          (([(1, Card.mk '♥' 14), (2, Card.mk '♥' 14)] : Trick).get i).2 →
        (i : Nat) ≤ (j : Nat))) :=
  ⟨⟨by decide, by decide⟩,
    c1_determine_winner '♣' [(1, Card.mk '♥' 14), (2, Card.mk '♥' 14)]
      (by decide) (by decide)⟩

/-- C5: `choose_trump` returns the suit maximizing
`10 * count(hand, suit) + sum of ranks of that suit`, ties broken by the
suit iteration order S, H, D, C (strictly greater than every earlier suit's
score, at least every other suit's score); and on the hand
`[2♠,3♠,4♠,5♠,A♥,A♦,A♣]` it returns `♠`. -/
theorem c5_choose_trump :
    (∀ hand : List Card,
      ∃ i, ∃ h : i < suitOrder.length,
        chooseTrump hand = suitOrder.get ⟨i, h⟩ ∧
        (∀ j (hj : j < suitOrder.length),
          suitScore hand (suitOrder.get ⟨j, hj⟩) ≤
            suitScore hand (suitOrder.get ⟨i, h⟩)) ∧
        (∀ j (hj : j < suitOrder.length), j < i →
          suitScore hand (suitOrder.get ⟨j, hj⟩) <
            suitScore hand (suitOrder.get ⟨i, h⟩))) ∧
    chooseTrump [Card.mk '♠' 2, Card.mk '♠' 3, Card.mk '♠' 4, Card.mk '♠' 5,
      Card.mk '♥' 14, Card.mk '♦' 14, Card.mk '♣' 14] = '♠' := by
  constructor
  · intro hand
    obtain ⟨i, h, heq, hle, hlt⟩ :=
      pyFoldMax_spec (fun x : Char × Int => x.2)
        [('♥', suitScore hand '♥'), ('♦', suitScore hand '♦'),
         ('♣', suitScore hand '♣')] ('♠', suitScore hand '♠')
    have hlen : (('♠', suitScore hand '♠') ::
        [('♥', suitScore hand '♥'), ('♦', suitScore hand '♦'),
         ('♣', suitScore hand '♣')]).length = 4 := rfl
    have hitem : ∀ j (hj : j < 4),
        (('♠', suitScore hand '♠') ::
          [('♥', suitScore hand '♥'), ('♦', suitScore hand '♦'),
           ('♣', suitScore hand '♣')]).get ⟨j, by omega⟩ =
        (suitOrder.get ⟨j, by simp [suitOrder]; omega⟩,
         suitScore hand (suitOrder.get ⟨j, by simp [suitOrder]; omega⟩)) := by
      intro j hj
      interval_cases j <;> rfl
    have h4 : i < 4 := by omega
    refine ⟨i, by simp [suitOrder]; omega, ?_, ?_, ?_⟩
    · show (pyFoldMax (fun x : Char × Int => x.2) ('♠', suitScore hand '♠')
        [('♥', suitScore hand '♥'), ('♦', suitScore hand '♦'),
         ('♣', suitScore hand '♣')]).1 = _
      rw [heq]
      have := hitem i h4
      rw [this]
    · intro j hj
      have hj4 : j < 4 := by simp [suitOrder] at hj; omega
      have h1 := hle j (by omega)
      rw [heq] at h1
      rw [hitem j hj4, hitem i h4] at h1
      exact h1
    · intro j hj hji
      have hj4 : j < 4 := by simp [suitOrder] at hj; omega
      have h1 := hlt j (by omega) hji
      rw [heq] at h1
      rw [hitem j hj4, hitem i h4] at h1
      exact h1
  · decide

/-- Witness for C5: the argmax characterisation instantiated at the S6
scenario hand. -/
theorem c5_choose_trump_witness :
    ∃ i, ∃ h : i < suitOrder.length,
      chooseTrump [Card.mk '♠' 2, Card.mk '♠' 3, Card.mk '♠' 4, Card.mk '♠' 5,
        Card.mk '♥' 14, Card.mk '♦' 14, Card.mk '♣' 14] = suitOrder.get ⟨i, h⟩ ∧
      (∀ j (hj : j < suitOrder.length),
        suitScore [Card.mk '♠' 2, Card.mk '♠' 3, Card.mk '♠' 4, Card.mk '♠' 5,
          Card.mk '♥' 14, Card.mk '♦' 14, Card.mk '♣' 14] (suitOrder.get ⟨j, hj⟩) ≤
        suitScore [Card.mk '♠' 2, Card.mk '♠' 3, Card.mk '♠' 4, Card.mk '♠' 5,
          Card.mk '♥' 14, Card.mk '♦' 14, Card.mk '♣' 14] (suitOrder.get ⟨i, h⟩)) ∧
      (∀ j (hj : j < suitOrder.length), j < i →
        suitScore [Card.mk '♠' 2, Card.mk '♠' 3, Card.mk '♠' 4, Card.mk '♠' 5,
          Card.mk '♥' 14, Card.mk '♦' 14, Card.mk '♣' 14] (suitOrder.get ⟨j, hj⟩) <
        suitScore [Card.mk '♠' 2, Card.mk '♠' 3, Card.mk '♠' 4, Card.mk '♠' 5,
          Card.mk '♥' 14, Card.mk '♦' 14, Card.mk '♣' 14] (suitOrder.get ⟨i, h⟩)) :=
  c5_choose_trump.1 _

theorem cardBeats_iff (c d : Card) (τ : Char) :
    cardBeats c d τ = true ↔ specBeats τ c d := by
  by_cases h1 : c.suit = τ <;> by_cases h2 : d.suit = τ <;>
    by_cases h3 : c.suit = d.suit <;>
      simp [cardBeats, specBeats, h1, h2, h3]

theorem playableCards_ne_nil (hand : List Card) (t : Trick) (hh : hand ≠ []) :
    playableCards hand t ≠ [] := by
  unfold playableCards
  cases t with
  | nil => exact hh
  | cons p ps =>
    by_cases he : (hand.filter (fun c => some c.suit == ledSuit (p :: ps))).isEmpty <;>
      simp only [he, if_true, if_false]
    · exact hh
    · simpa [List.isEmpty_iff] using he

theorem followCard_eq (playable : List Card) (t : Trick) (τ : Char) (w0 : Card)
    (hw : currentWinningCard t τ = some w0) :
    followCard playable t τ =
      (match List.filter (fun c => cardBeats c w0 τ) playable with
       | h :: hs => some (pyFoldMin (fun c : Card => c.rank) h hs)
       | [] =>
         match playable with
         | h :: hs => some (pyFoldMin (fun c : Card => c.rank) h hs)
         | [] => none) := by
  unfold followCard
  rw [hw]

/-- C6: `choose_card` on a non-empty hand: when leading (empty trick) it
plays the highest-rank non-trump card of rank at least 12 if one exists,
else the lowest-rank non-trump card if any, else the lowest trump; when
following, over the playable set (led-suit cards if any, else the whole
hand) it plays the lowest-rank card beating the currently winning card of
the partial trick if some playable card beats it, and otherwise the
lowest-rank playable card. -/
theorem c6_choose_card (hand : List Card) (t : Trick) (τ : Char)
    (hh : hand ≠ []) :
    ∃ c, chooseCard hand t τ = some c ∧ c ∈ playableCards hand t ∧
      (t = [] →
        ((highLeadCards hand τ ≠ [] →
          c ∈ highLeadCards hand τ ∧ ∀ d ∈ highLeadCards hand τ, d.rank ≤ c.rank) ∧
         (highLeadCards hand τ = [] → nonTrumpCards hand τ ≠ [] →
          c ∈ nonTrumpCards hand τ ∧ ∀ d ∈ nonTrumpCards hand τ, c.rank ≤ d.rank) ∧
         (nonTrumpCards hand τ = [] → ∀ d ∈ hand, c.rank ≤ d.rank))) ∧
      (∀ w, currentWinningCard t τ = some w →
        ((∃ p ∈ playableCards hand t, specBeats τ p w) →
          specBeats τ c w ∧
          ∀ p ∈ playableCards hand t, specBeats τ p w → c.rank ≤ p.rank) ∧
        ((¬ ∃ p ∈ playableCards hand t, specBeats τ p w) →
          ∀ p ∈ playableCards hand t, c.rank ≤ p.rank)) := by
  cases t with
  | nil =>
    have hplay : playableCards hand ([] : Trick) = hand := rfl
    have hchoose : chooseCard hand ([] : Trick) τ = leadCard hand τ := rfl
    cases hH : highLeadCards hand τ with
    | cons h hs =>
      refine ⟨pyFoldMax (fun c : Card => c.rank) h hs, ?_, ?_, ?_, ?_⟩
      · rw [hchoose]
        unfold leadCard
        rw [hH]
      · rw [hplay]
        have hmem : pyFoldMax (fun c : Card => c.rank) h hs ∈ h :: hs :=
          pyFoldMax_mem _ _ _
        rw [← hH] at hmem
        exact List.mem_of_mem_filter (List.mem_of_mem_filter hmem)
      · intro _
        refine ⟨?_, ?_, ?_⟩
        · intro _
          refine ⟨pyFoldMax_mem _ _ _, ?_⟩
          intro d hd
          exact pyFoldMax_le _ _ _ d hd
        · intro habs
          exact absurd habs (by simp)
        · intro habs
          have hempty : highLeadCards hand τ = [] := by
            unfold highLeadCards
            rw [habs]
            rfl
          rw [hH] at hempty
          exact absurd hempty (by simp)
      · intro w hw
        simp [currentWinningCard] at hw
    | nil =>
      cases hN : nonTrumpCards hand τ with
      | cons h hs =>
        refine ⟨pyFoldMin (fun c : Card => c.rank) h hs, ?_, ?_, ?_, ?_⟩
        · rw [hchoose]
          unfold leadCard
          rw [hH, hN]
        · rw [hplay]
          have hmem : pyFoldMin (fun c : Card => c.rank) h hs ∈ h :: hs :=
            pyFoldMin_mem _ _ _
          rw [← hN] at hmem
          exact List.mem_of_mem_filter hmem
        · intro _
          refine ⟨fun habs => absurd rfl habs, ?_, ?_⟩
          · intro _ _
            refine ⟨pyFoldMin_mem _ _ _, ?_⟩
            intro d hd
            exact pyFoldMin_le _ _ _ d hd
          · intro habs
            exact absurd habs (by simp)
        · intro w hw
          simp [currentWinningCard] at hw
      | nil =>
        cases hhand : hand with
        | nil => subst hhand; exact absurd rfl hh
        | cons h hs =>
          subst hhand
          refine ⟨pyFoldMin (fun c : Card => c.rank) h hs, ?_, ?_, ?_, ?_⟩
          · rw [hchoose]
            unfold leadCard
            rw [hH, hN]
          · rw [hplay]
            exact pyFoldMin_mem _ _ _
          · intro _
            refine ⟨fun habs => absurd rfl habs, fun _ habs => absurd rfl habs, ?_⟩
            intro _ d hd
            exact pyFoldMin_le _ _ _ d hd
          · intro w hw
            simp [currentWinningCard] at hw
  | cons p ps =>
    have hchoose : chooseCard hand (p :: ps) τ =
        followCard (playableCards hand (p :: ps)) (p :: ps) τ := rfl
    have hpne : playableCards hand (p :: ps) ≠ [] :=
      playableCards_ne_nil hand (p :: ps) hh
    obtain ⟨w0, hw0⟩ : ∃ w0, currentWinningCard (p :: ps) τ = some w0 :=
      ⟨_, rfl⟩
    cases hW : List.filter (fun c => cardBeats c w0 τ) (playableCards hand (p :: ps)) with
    | cons h hs =>
      have hmem : pyFoldMin (fun c : Card => c.rank) h hs ∈ h :: hs :=
        pyFoldMin_mem _ _ _
      have hmemf : pyFoldMin (fun c : Card => c.rank) h hs ∈
          List.filter (fun c => cardBeats c w0 τ) (playableCards hand (p :: ps)) := by
        rw [hW]; exact hmem
      have hbeats : specBeats τ (pyFoldMin (fun c : Card => c.rank) h hs) w0 := by
        have hb := List.of_mem_filter hmemf
        simp only at hb
        exact (cardBeats_iff _ _ _).mp hb
      refine ⟨pyFoldMin (fun c : Card => c.rank) h hs, ?_, ?_, ?_, ?_⟩
      · rw [hchoose, followCard_eq _ _ _ _ hw0, hW]
      · exact List.mem_of_mem_filter hmemf
      · intro habs
        exact absurd habs (by simp)
      · intro w hw
        rw [hw0] at hw
        injection hw with hw
        subst hw
        constructor
        · intro _
          refine ⟨hbeats, ?_⟩
          intro q hq hbq
          have hqf : q ∈ List.filter (fun c => cardBeats c w0 τ)
              (playableCards hand (p :: ps)) :=
            List.mem_filter_of_mem hq ((cardBeats_iff _ _ _).mpr hbq)
          rw [hW] at hqf
          exact pyFoldMin_le _ _ _ q hqf
        · intro habs
          exact absurd ⟨_, List.mem_of_mem_filter hmemf, hbeats⟩ habs
    | nil =>
      obtain ⟨h, hs, hP⟩ : ∃ h hs, playableCards hand (p :: ps) = h :: hs := by
        cases hp : playableCards hand (p :: ps) with
        | nil => exact absurd hp hpne
        | cons h hs => exact ⟨h, hs, rfl⟩
      refine ⟨pyFoldMin (fun c : Card => c.rank) h hs, ?_, ?_, ?_, ?_⟩
      · rw [hchoose, followCard_eq _ _ _ _ hw0, hW, hP]
      · rw [hP]
        exact pyFoldMin_mem _ _ _
      · intro habs
        exact absurd habs (by simp)
      · intro w hw
        rw [hw0] at hw
        injection hw with hw
        subst hw
        constructor
        · intro hex
          exfalso
          obtain ⟨q, hq, hbq⟩ := hex
          have hqf : q ∈ List.filter (fun c => cardBeats c w0 τ)
              (playableCards hand (p :: ps)) :=
            List.mem_filter_of_mem hq ((cardBeats_iff _ _ _).mpr hbq)
          rw [hW] at hqf
          simp at hqf
        · intro _ q hq
          rw [hP] at hq
          exact pyFoldMin_le _ _ _ q hq

/-- Witness for C6: a concrete following situation (hand `[Q♠, 3♦]`, trick
led with `5♠`, trump hearts). -/
theorem c6_choose_card_witness :
    (([Card.mk '♠' 12, Card.mk '♦' 3] : List Card) ≠ []) ∧
    (∃ c, chooseCard [Card.mk '♠' 12, Card.mk '♦' 3] [(0, Card.mk '♠' 5)] '♥' = some c ∧
      c ∈ playableCards [Card.mk '♠' 12, Card.mk '♦' 3] [(0, Card.mk '♠' 5)] ∧
      (([(0, Card.mk '♠' 5)] : Trick) = [] →
        ((highLeadCards [Card.mk '♠' 12, Card.mk '♦' 3] '♥' ≠ [] →
          c ∈ highLeadCards [Card.mk '♠' 12, Card.mk '♦' 3] '♥' ∧
          ∀ d ∈ highLeadCards [Card.mk '♠' 12, Card.mk '♦' 3] '♥', d.rank ≤ c.rank) ∧
         (highLeadCards [Card.mk '♠' 12, Card.mk '♦' 3] '♥' = [] →
          nonTrumpCards [Card.mk '♠' 12, Card.mk '♦' 3] '♥' ≠ [] →
          c ∈ nonTrumpCards [Card.mk '♠' 12, Card.mk '♦' 3] '♥' ∧
          ∀ d ∈ nonTrumpCards [Card.mk '♠' 12, Card.mk '♦' 3] '♥', c.rank ≤ d.rank) ∧
         (nonTrumpCards [Card.mk '♠' 12, Card.mk '♦' 3] '♥' = [] →
          ∀ d ∈ ([Card.mk '♠' 12, Card.mk '♦' 3] : List Card), c.rank ≤ d.rank))) ∧
      (∀ w, currentWinningCard [(0, Card.mk '♠' 5)] '♥' = some w →
        ((∃ p ∈ playableCards [Card.mk '♠' 12, Card.mk '♦' 3] [(0, Card.mk '♠' 5)],
            specBeats '♥' p w) →
          specBeats '♥' c w ∧
          ∀ p ∈ playableCards [Card.mk '♠' 12, Card.mk '♦' 3] [(0, Card.mk '♠' 5)],
            specBeats '♥' p w → c.rank ≤ p.rank) ∧
        ((¬ ∃ p ∈ playableCards [Card.mk '♠' 12, Card.mk '♦' 3] [(0, Card.mk '♠' 5)],
            specBeats '♥' p w) →
          ∀ p ∈ playableCards [Card.mk '♠' 12, Card.mk '♦' 3] [(0, Card.mk '♠' 5)],
            c.rank ≤ p.rank))) :=
  ⟨by decide,
    c6_choose_card [Card.mk '♠' 12, Card.mk '♦' 3] [(0, Card.mk '♠' 5)] '♥'
      (by decide)⟩

theorem fromChars_none_iff (l : List Char) :
    fromChars l = none ↔ l = [] ∨ rankOfChars l.dropLast = none := by
  unfold fromChars
  cases hl : l.getLast? with
  | none =>
    have : l = [] := by
      cases l with
      | nil => rfl
      | cons x xs => simp at hl
    subst this
    simp
  | some su =>
    have hne : l ≠ [] := by
      intro he
      subst he
      simp at hl
    cases hr : rankOfChars l.dropLast with
    | none => simp [hne, hr]
    | some r => simp [hne, hr]

theorem fromChars_some (l : List Char) (c : Card) (h : fromChars l = some c) :
    l.getLast? = some c.suit ∧ rankOfChars l.dropLast = some c.rank := by
  unfold fromChars at h
  cases hl : l.getLast? with
  | none => rw [hl] at h; cases h
  | some su =>
    rw [hl] at h
    cases hr : rankOfChars l.dropLast with
    | none => rw [hr] at h; cases h
    | some r =>
      rw [hr] at h
      injection h with h
      subst h
      exact ⟨rfl, rfl⟩

/-- C8 counterexample: `Card.from_string` accepts the out-of-range rank
`"15♠"` (rank 15 is not among 2..10, J, Q, K, A) and the unknown suit
character in `"AX"`, where the claim requires a parse failure. -/
theorem c8_from_string_counterexample :
    fromString "15♠" = some ⟨'♠', 15⟩ ∧ fromString "15♠" ≠ none ∧
    fromString "AX" = some ⟨'X', 14⟩ := by
  refine ⟨by decide, by decide, by decide⟩

/-- C8 (amended): parsing succeeds on every claimed string R+glyph with
R in 2..10, J, Q, K, A (with the claimed values), but more generally it
succeeds on any string whose last character (used verbatim as the suit, with
no glyph check) is preceded by a prefix that is a signed decimal integer
literal (used verbatim as the rank, with no range check) or one of J, Q, K,
A; it fails exactly on the empty string and on strings whose rank prefix is
neither an integer literal nor J/Q/K/A. -/
theorem c8_from_string_amended :
    (∀ pr ∈ ([("2", 2), ("3", 3), ("4", 4), ("5", 5), ("6", 6), ("7", 7),
        ("8", 8), ("9", 9), ("10", 10), ("J", 11), ("Q", 12), ("K", 13),
        ("A", 14)] : List (String × Int)),
      ∀ sg ∈ (['♠', '♥', '♦', '♣'] : List Char),
        fromString (pr.1.push sg) = some ⟨sg, pr.2⟩) ∧
    (∀ s : String, fromString s = none ↔
      (s.toList = [] ∨ rankOfChars s.toList.dropLast = none)) ∧
    (∀ s : String, ∀ c : Card, fromString s = some c →
      s.toList.getLast? = some c.suit ∧ rankOfChars s.toList.dropLast = some c.rank) := by
  refine ⟨by decide, ?_, ?_⟩
  · intro s
    exact fromChars_none_iff s.toList
  · intro s c h
    exact fromChars_some s.toList c h

/-- Witness for C8 (amended): the success-shape conjunct applied at the
concrete parse of `"A♥"`. -/
theorem c8_from_string_amended_witness :
    "A♥".toList.getLast? = some (Card.mk '♥' 14).suit ∧
    rankOfChars "A♥".toList.dropLast = some (Card.mk '♥' 14).rank :=
  c8_from_string_amended.2.2 "A♥" (Card.mk '♥' 14) (by decide)

/-- C2: a playCard request is rejected with exactly one of the five errors,
raised iff (in source order of the checks) the phase is wrong, the turn is
wrong, the requester already played in this trick, no card of the named
(suit, rank) is in the requester's hand, or the trick is non-empty, the
requester holds a led-suit card and the named card is off-suit; the play is
accepted iff none of these holds, and a rejected play produces no successor
state (`play_card` raises before any mutation). -/
theorem c2_validate_play (g : Game) (p : PlayerR) (c : Card) :
    (validatePlay g p c = some "Not time to play" ↔ g.state ≠ Phase.playing) ∧
    (validatePlay g p c = some "Not your turn" ↔
      g.state = Phase.playing ∧ g.currentPlayer ≠ some p.pid) ∧
    (validatePlay g p c = some "Already played this round" ↔
      g.state = Phase.playing ∧ g.currentPlayer = some p.pid ∧
      (∃ pl ∈ g.currentTrick, pl.1 = p.pid)) ∧
    (validatePlay g p c = some "Card not in hand" ↔
      g.state = Phase.playing ∧ g.currentPlayer = some p.pid ∧
      (¬ ∃ pl ∈ g.currentTrick, pl.1 = p.pid) ∧
      (¬ ∃ h ∈ p.hand, h.card.suit = c.suit ∧ h.card.rank = c.rank)) ∧
    (validatePlay g p c = some "Must follow suit" ↔
      g.state = Phase.playing ∧ g.currentPlayer = some p.pid ∧
      (¬ ∃ pl ∈ g.currentTrick, pl.1 = p.pid) ∧
      (∃ h ∈ p.hand, h.card.suit = c.suit ∧ h.card.rank = c.rank) ∧
      g.currentTrick ≠ [] ∧
      (∃ h ∈ p.hand, some h.card.suit = ledSuitP g.currentTrick) ∧
      some c.suit ≠ ledSuitP g.currentTrick) ∧
    (validatePlay g p c = none ↔
      g.state = Phase.playing ∧ g.currentPlayer = some p.pid ∧
      (¬ ∃ pl ∈ g.currentTrick, pl.1 = p.pid) ∧
      (∃ h ∈ p.hand, h.card.suit = c.suit ∧ h.card.rank = c.rank) ∧
      ¬ (g.currentTrick ≠ [] ∧
        (∃ h ∈ p.hand, some h.card.suit = ledSuitP g.currentTrick) ∧
        some c.suit ≠ ledSuitP g.currentTrick)) ∧
    (∀ e, validatePlay g p c = some e → playCardStep g p c = Except.error e) := by
  by_cases h1 : g.state = Phase.playing
  · by_cases h2 : g.currentPlayer = some p.pid
    · by_cases h3 : ∃ pl ∈ g.currentTrick, pl.1 = p.pid
      · simp [validatePlay, playCardStep, h1, h2, h3]
      · by_cases h4 : ∃ h ∈ p.hand, h.card.suit = c.suit ∧ h.card.rank = c.rank
        · by_cases h5a : g.currentTrick = []
          · simp [validatePlay, playCardStep, h1, h2, h3, h4, h5a]
          · by_cases h5b : ∃ h ∈ p.hand, some h.card.suit = ledSuitP g.currentTrick
            · by_cases h5c : some c.suit = ledSuitP g.currentTrick
              · simp [validatePlay, playCardStep, h1, h2, h3, h4, h5a, h5b, h5c]
              · have hhand : p.hand ≠ [] := by
                  obtain ⟨h, hm, -⟩ := h5b
                  intro he
                  rw [he] at hm
                  simp at hm
                simp [validatePlay, playCardStep, h1, h2, h3, h4, h5a, h5b, h5c, hhand]
            · simp [validatePlay, playCardStep, h1, h2, h3, h4, h5a, h5b]
        · simp [validatePlay, playCardStep, h1, h2, h3, h4]
    · simp [validatePlay, playCardStep, h1, h2]
  · simp [validatePlay, playCardStep, h1]

theorem map_id_of_mem {α : Type} (f : α → α) (l : List α)
    (h : ∀ a ∈ l, f a = a) : l.map f = l := by
  induction l with
  | nil => rfl
  | cons x xs ih =>
    simp only [List.map_cons]
    rw [h x (List.mem_cons_self _ _), ih (fun a ha => h a (List.mem_cons_of_mem _ ha))]

theorem pyFind_eq (q : PlayerR) (l : List PlayerR) :
    ∀ (i : Nat) (h : i < l.length), l.get ⟨i, h⟩ = q →
    (∀ j (hj : j < l.length), j < i → l.get ⟨j, hj⟩ ≠ q) →
    pyFind q l = some i := by
  induction l with
  | nil => intro i h; simp at h
  | cons x xs ih =>
    intro i h hget hbefore
    cases i with
    | zero =>
      have hx : x = q := hget
      simp [pyFind, hx]
    | succ k =>
      have hx : x ≠ q := hbefore 0 (by simp) (by omega)
      have hrec := ih k (by simpa using h) hget
        (fun j hj hji => hbefore (j + 1) (by simpa using hj) (by omega))
      simp [pyFind, hx, hrec]

theorem removeFirstCard_erase (hand : List PCard) (c : Card)
    (hex : ∃ h ∈ hand, h.card.suit = c.suit ∧ h.card.rank = c.rank) :
    ∃ k, ∃ hk : k < hand.length,
      (hand.get ⟨k, hk⟩).card.suit = c.suit ∧
      (hand.get ⟨k, hk⟩).card.rank = c.rank ∧
      removeFirstCard hand c = hand.eraseIdx k := by
  induction hand with
  | nil => simp at hex
  | cons x xs ih =>
    by_cases hx : x.card.suit = c.suit ∧ x.card.rank = c.rank
    · exact ⟨0, by simp, hx.1, hx.2, by simp [removeFirstCard, hx.1, hx.2]⟩
    · have hex2 : ∃ h ∈ xs, h.card.suit = c.suit ∧ h.card.rank = c.rank := by
        obtain ⟨h, hm, hp⟩ := hex
        rcases List.mem_cons.mp hm with he | he
        · exact absurd (he ▸ hp) hx
        · exact ⟨h, he, hp⟩
      obtain ⟨k, hk, h1, h2, h3⟩ := ih hex2
      refine ⟨k + 1, by simpa using hk, h1, h2, ?_⟩
      have hcond : (x.card.suit == c.suit && x.card.rank == c.rank) = false := by
        rw [Bool.and_eq_false_iff]
        by_cases hs : x.card.suit = c.suit
        · right
          simp only [beq_eq_false_iff_ne, ne_eq]
          exact fun hr => hx ⟨hs, hr⟩
        · left
          simp only [beq_eq_false_iff_ne, ne_eq]
          exact hs
      show (if x.card.suit == c.suit && x.card.rank == c.rank then xs
        else x :: removeFirstCard xs c) = (x :: xs).eraseIdx (k + 1)
      rw [hcond]
      simp only [Bool.false_eq_true, if_false, List.eraseIdx_cons_succ]
      rw [h3]

theorem validatePlay_none_card (g : Game) (p : PlayerR) (c : Card)
    (hv : validatePlay g p c = none) :
    ∃ h ∈ p.hand, h.card.suit = c.suit ∧ h.card.rank = c.rank := by
  unfold validatePlay at hv
  split_ifs at hv with h1 h2 h3 h4 h5
  simpa using h4

/-- C4: a successful playCard removes exactly one (suit, rank)-matching card
from the playing player's hand, appends exactly one play (carrying that card
value) to the trick, leaves every other participant's hand unchanged, and
advances `current_player` by exactly one cyclic step through the ordered
players list.  The pid-nodup hypothesis says participants are distinct
objects, which holds of every room built through the public operations. -/
theorem c4_play_card_frame (g : Game) (p : PlayerR) (c : Card) (g2 : Game)
    (hok : playCardStep g p c = Except.ok g2)
    (hmem : p ∈ g.players)
    (hnd : List.Nodup ((g.players ++ g.spectators).map (fun q => q.pid))) :
    ∃ i, ∃ h : i < g.players.length,
      g.players.get ⟨i, h⟩ = p ∧
      g2.players.length = g.players.length ∧
      (∀ j, j ≠ i → g2.players.get? j = g.players.get? j) ∧
      g2.players.get? i = some { p with hand := removeFirstCard p.hand c } ∧
      (∃ k, ∃ hk : k < p.hand.length,
        (p.hand.get ⟨k, hk⟩).card.suit = c.suit ∧
        (p.hand.get ⟨k, hk⟩).card.rank = c.rank ∧
        removeFirstCard p.hand c = p.hand.eraseIdx k) ∧
      g2.spectators = g.spectators ∧
      (∃ pc : PCard, pc.card = c ∧
        g2.currentTrick = g.currentTrick ++ [(p.pid, pc)]) ∧
      g2.currentPlayer =
        (g.players.get? ((i + 1) % g.players.length)).map (fun q => q.pid) := by
  cases hv : validatePlay g p c with
  | some e =>
    exfalso
    unfold playCardStep at hok
    rw [hv] at hok
    cases hok
  | none =>
    unfold playCardStep at hok
    rw [hv] at hok
    injection hok with hg2
    obtain ⟨⟨i, hi⟩, hgetp⟩ := List.mem_iff_get.mp hmem
    have hq : g.players.get? i = some p := by
      rw [List.get?_eq_get hi, hgetp]
    have hndp : List.Nodup (List.map (fun q => q.pid) g.players) := by
      rw [List.map_append] at hnd
      exact (List.nodup_append.mp hnd).1
    have hdisj : ∀ q ∈ g.spectators, q.pid ≠ p.pid := by
      intro q hq2 heq
      rw [List.map_append] at hnd
      have hd := List.disjoint_of_nodup_append hnd
      have hpl : p.pid ∈ List.map (fun q => q.pid) g.players :=
        List.mem_map_of_mem _ hmem
      have hsp : p.pid ∈ List.map (fun q => q.pid) g.spectators := by
        rw [← heq]
        exact List.mem_map_of_mem _ hq2
      exact hd hpl hsp
    have hpo : ∀ j (hj : j < g.players.length), j ≠ i →
        (g.players.get ⟨j, hj⟩).pid ≠ p.pid := by
      intro j hj hne heq
      have h1 : (List.map (fun q => q.pid) g.players).get
            ⟨j, by simpa using hj⟩ =
          (List.map (fun q => q.pid) g.players).get ⟨i, by simpa using hi⟩ := by
        have e1 : (List.map (fun q => q.pid) g.players).get ⟨j, by simpa using hj⟩ =
            (g.players.get ⟨j, hj⟩).pid := by
          rw [List.get_map]
        have e2 : (List.map (fun q => q.pid) g.players).get ⟨i, by simpa using hi⟩ =
            (g.players.get ⟨i, hi⟩).pid := by
          rw [List.get_map]
        rw [e1, e2, hgetp]
        exact heq
      have h2 := hndp.get_inj_iff.mp h1
      exact hne (congrArg Fin.val h2)
    refine ⟨i, hi, hgetp, ?_, ?_, ?_, ?_, ?_, ?_, ?_⟩
    · rw [← hg2]
      simp
    · intro j hne
      rw [← hg2]
      by_cases hj : j < g.players.length
      · show (List.map _ g.players).get? j = _
        rw [List.get?_map, List.get?_eq_get hj, Option.map_some']
        show some (if (g.players.get ⟨j, hj⟩).pid = p.pid
          then { p with hand := removeFirstCard p.hand c }
          else g.players.get ⟨j, hj⟩) = _
        rw [if_neg (hpo j hj hne)]
      · have hj1 : g.players.length ≤ j := by omega
        show (List.map _ g.players).get? j = _
        rw [List.get?_map, List.get?_eq_none.mpr hj1]
        rfl
    · rw [← hg2]
      show (List.map _ g.players).get? i = _
      rw [List.get?_map, hq, Option.map_some']
      show some (if p.pid = p.pid then { p with hand := removeFirstCard p.hand c }
        else p) = _
      rw [if_pos rfl]
    · exact removeFirstCard_erase p.hand c (validatePlay_none_card g p c hv)
    · rw [← hg2]
      show List.map _ g.spectators = g.spectators
      apply map_id_of_mem
      intro q hq2
      exact if_neg (hdisj q hq2)
    · exact ⟨⟨g.nextCid, c⟩, rfl, by rw [← hg2]⟩
    · rw [← hg2]
      show (nextPlayer
          (g.players.map (fun q =>
            if q.pid = p.pid then { p with hand := removeFirstCard p.hand c } else q))
          { p with hand := removeFirstCard p.hand c }).map (fun q => q.pid) = _
      have hples : ¬ (g.players.map (fun q =>
          if q.pid = p.pid then { p with hand := removeFirstCard p.hand c }
          else q)).isEmpty = true := by
        simp only [List.isEmpty_iff, List.map_eq_nil]
        intro he
        rw [he] at hi
        simp at hi
      have hfind : pyFind { p with hand := removeFirstCard p.hand c }
          (g.players.map (fun q =>
            if q.pid = p.pid then { p with hand := removeFirstCard p.hand c }
            else q)) = some i := by
        apply pyFind_eq _ _ i (by simpa using hi)
        · have e1 : (g.players.map (fun q =>
              if q.pid = p.pid then { p with hand := removeFirstCard p.hand c }
              else q)).get ⟨i, by simpa using hi⟩ =
              (if (g.players.get ⟨i, hi⟩).pid = p.pid
                then { p with hand := removeFirstCard p.hand c }
                else g.players.get ⟨i, hi⟩) := by
            rw [List.get_map]
          rw [e1, hgetp, if_pos rfl]
        · intro j hj hji heq
          have hj2 : j < g.players.length := by simpa using hj
          have hne : j ≠ i := by omega
          have e1 : (g.players.map (fun q =>
              if q.pid = p.pid then { p with hand := removeFirstCard p.hand c }
              else q)).get ⟨j, hj⟩ =
              (if (g.players.get ⟨j, hj2⟩).pid = p.pid
                then { p with hand := removeFirstCard p.hand c }
                else g.players.get ⟨j, hj2⟩) := by
            rw [List.get_map]
          rw [e1, if_neg (hpo j hj2 hne)] at heq
          exact hpo j hj2 hne (by rw [heq])
      unfold nextPlayer
      rw [if_neg hples, hfind]
      show ((g.players.map (fun q =>
          if q.pid = p.pid then { p with hand := removeFirstCard p.hand c }
          else q)).get? ((i + 1) % (g.players.map (fun q =>
          if q.pid = p.pid then { p with hand := removeFirstCard p.hand c }
          else q)).length)).map (fun q => q.pid) = _
      rw [List.length_map, List.get?_map]
      cases hq2 : g.players.get? ((i + 1) % g.players.length) with
      | none => rfl
      | some q =>
        rw [Option.map_some', Option.map_some', Option.map_some']
        show some (PlayerR.pid (if q.pid = p.pid
          then { p with hand := removeFirstCard p.hand c } else q)) = some q.pid
        by_cases hqq : q.pid = p.pid
        · rw [if_pos hqq]
          show some p.pid = some q.pid
          rw [hqq]
        · rw [if_neg hqq]

/-- Witness for C4: the frame conditions instantiated at `wGame4`, where
player 1 plays the ten of spades. -/
theorem c4_play_card_frame_witness :
    (playCardStep wGame4 wP4 (Card.mk '♠' 10) = Except.ok wGame4x ∧
      wP4 ∈ wGame4.players ∧
      List.Nodup ((wGame4.players ++ wGame4.spectators).map (fun q => q.pid))) ∧
    (∃ i, ∃ h : i < wGame4.players.length,
      wGame4.players.get ⟨i, h⟩ = wP4 ∧
      wGame4x.players.length = wGame4.players.length ∧
      (∀ j, j ≠ i → wGame4x.players.get? j = wGame4.players.get? j) ∧
      wGame4x.players.get? i =
        some { wP4 with hand := removeFirstCard wP4.hand (Card.mk '♠' 10) } ∧
      (∃ k, ∃ hk : k < wP4.hand.length,
        (wP4.hand.get ⟨k, hk⟩).card.suit = (Card.mk '♠' 10).suit ∧
        (wP4.hand.get ⟨k, hk⟩).card.rank = (Card.mk '♠' 10).rank ∧
        removeFirstCard wP4.hand (Card.mk '♠' 10) = wP4.hand.eraseIdx k) ∧
      wGame4x.spectators = wGame4.spectators ∧
      (∃ pc : PCard, pc.card = Card.mk '♠' 10 ∧
        wGame4x.currentTrick = wGame4.currentTrick ++ [(wP4.pid, pc)]) ∧
      wGame4x.currentPlayer =
        (wGame4.players.get? ((i + 1) % wGame4.players.length)).map
          (fun q => q.pid)) :=
  ⟨⟨by decide, by decide, by decide⟩,
    c4_play_card_frame wGame4 wP4 (Card.mk '♠' 10) wGame4x
      (by decide) (by decide) (by decide)⟩

theorem mtsCore_cons_ne (x y : PlayerR) (pl spec : List PlayerR) (h : y ≠ x) :
    mtsCore (x :: pl, spec) y =
      ((x :: (mtsCore (pl, spec) y).1, (mtsCore (pl, spec) y).2)) := by
  unfold mtsCore
  by_cases hy : y ∈ pl
  · rw [if_pos (List.mem_cons_of_mem _ hy), if_pos hy]
    rw [List.erase_cons_tail (not_beq_of_ne (Ne.symm h))]
  · have hxy : y ∉ x :: pl := by
      intro hc
      rcases List.mem_cons.mp hc with hc | hc
      · exact h hc
      · exact hy hc
    rw [if_neg hxy, if_neg hy]

theorem mts_fold_cons_ne (ys : List PlayerR) (x : PlayerR)
    (hne : ∀ y ∈ ys, y ≠ x) :
    ∀ (pl spec : List PlayerR),
    List.foldl mtsCore (x :: pl, spec) ys =
      ((x :: (List.foldl mtsCore (pl, spec) ys).1,
        (List.foldl mtsCore (pl, spec) ys).2)) := by
  induction ys with
  | nil => intro pl spec; rfl
  | cons y ys ih =>
    intro pl spec
    show List.foldl mtsCore (mtsCore (x :: pl, spec) y) ys = _
    rw [mtsCore_cons_ne x y pl spec (hne y (List.mem_cons_self _ _))]
    exact ih (fun z hz => hne z (List.mem_cons_of_mem _ hz))
      (mtsCore (pl, spec) y).1 (mtsCore (pl, spec) y).2

theorem mts_fold_filter (P : PlayerR → Bool) (pl : List PlayerR) :
    ∀ (spec : List PlayerR),
    List.foldl mtsCore (pl, spec) (pl.filter P) =
      ((pl.filter (fun x => ! P x)),
        spec ++ (pl.filter P).filter (fun x => ! x.isAI)) := by
  induction pl with
  | nil => intro spec; simp
  | cons x pl ih =>
    intro spec
    by_cases hP : P x
    · rw [List.filter_cons_of_pos hP]
      show List.foldl mtsCore (mtsCore (x :: pl, spec) x) (pl.filter P) = _
      have h1 : mtsCore (x :: pl, spec) x =
          (pl, if x.isAI then spec else spec ++ [x]) := by
        unfold mtsCore
        rw [if_pos (List.mem_cons_self _ _), List.erase_cons_head]
      rw [h1]
      by_cases hA : x.isAI
      · simp only [hA, if_true]
        rw [ih spec]
        rw [List.filter_cons_of_neg (by simp [hP]),
          List.filter_cons_of_neg (by simp [hA])]
      · have hA2 : x.isAI = false := by
          cases hAtest : x.isAI
          · rfl
          · exact absurd hAtest hA
        rw [hA2]
        simp only [Bool.false_eq_true, if_false]
        rw [ih (spec ++ [x])]
        rw [List.filter_cons_of_neg (by simp [hP]),
          List.filter_cons_of_pos (by simp [hA2])]
        simp
    · rw [List.filter_cons_of_neg hP]
      have hne : ∀ y ∈ pl.filter P, y ≠ x := by
        intro y hy heq
        exact hP (heq ▸ List.of_mem_filter hy)
      rw [mts_fold_cons_ne (pl.filter P) x hne pl spec]
      rw [ih spec]
      rw [List.filter_cons_of_pos (by simp [hP])]

theorem foldl_moveToSpectator (l : List PlayerR) :
    ∀ (g : Game),
    (l.foldl moveToSpectator g) =
      { g with players := (List.foldl mtsCore (g.players, g.spectators) l).1,
               spectators := (List.foldl mtsCore (g.players, g.spectators) l).2 } := by
  induction l with
  | nil => intro g; rfl
  | cons y ys ih =>
    intro g
    show List.foldl moveToSpectator (moveToSpectator g y) ys = _
    rw [ih (moveToSpectator g y)]
    rfl

theorem pyMaxNat_fold_spec (t : List Nat) :
    ∀ b : Nat, (List.foldl max b t = b ∨ List.foldl max b t ∈ t) ∧
      b ≤ List.foldl max b t ∧ ∀ x ∈ t, x ≤ List.foldl max b t := by
  induction t with
  | nil => intro b; exact ⟨Or.inl rfl, le_refl _, by simp⟩
  | cons y ys ih =>
    intro b
    obtain ⟨hmem, hb, hall⟩ := ih (max b y)
    have hstep : List.foldl max b (y :: ys) = List.foldl max (max b y) ys := rfl
    refine ⟨?_, ?_, ?_⟩
    · rw [hstep]
      rcases hmem with h | h
      · rcases max_choice b y with hc | hc
        · exact Or.inl (by rw [h, hc])
        · refine Or.inr ?_
          rw [h, hc]
          exact List.mem_cons_self _ _
      · exact Or.inr (List.mem_cons_of_mem _ h)
    · rw [hstep]
      exact le_trans (le_max_left b y) hb
    · intro x hx
      rw [hstep]
      rcases List.mem_cons.mp hx with hc | hc
      · rw [hc]
        exact le_trans (le_max_right b y) hb
      · exact hall x hc

theorem pyMaxNat_spec (l : List Nat) (hne : l ≠ []) :
    pyMaxNat l ∈ l ∧ ∀ x ∈ l, x ≤ pyMaxNat l := by
  cases l with
  | nil => exact absurd rfl hne
  | cons h t =>
    obtain ⟨hmem, hb, hall⟩ := pyMaxNat_fold_spec t h
    refine ⟨?_, ?_⟩
    · show List.foldl max h t ∈ h :: t
      rcases hmem with hc | hc
      · rw [hc]; exact List.mem_cons_self _ _
      · exact List.mem_cons_of_mem _ hc
    · intro x hx
      rcases List.mem_cons.mp hx with hc | hc
      · exact hc ▸ hb
      · exact hall x hc

theorem handleRoundEnd_g1 (g : Game) :
    (g.players.filter (fun p => p.tricksWon == 0)).foldl moveToSpectator g =
      { g with
          players := g.players.filter (fun p => !(p.tricksWon == 0)),
          spectators := g.spectators ++
            (g.players.filter (fun p => p.tricksWon == 0)).filter
              (fun p => !p.isAI) } := by
  rw [foldl_moveToSpectator, mts_fold_filter]

/-- C3: at round end every zero-trick player leaves the rotation (humans
are moved to spectators) and every player with a trick survives; if at most
one player survives or the round just played was round 1 (`current_round` at
most 1) the game is finished and the first survivor, if any, is announced
winner; otherwise the round counter strictly decreases by one, trump is
cleared, and a player tied for the maximum trick count becomes trump caller,
current player and trick starter — for every value of the random choice. -/
theorem c3_handle_round_end (g : Game) (choice : Nat) :
    (handleRoundEnd g choice).1.players =
      g.players.filter (fun p => !(p.tricksWon == 0)) ∧
    (handleRoundEnd g choice).1.spectators =
      g.spectators ++ (g.players.filter (fun p => p.tricksWon == 0)).filter
        (fun p => !p.isAI) ∧
    (∀ p ∈ g.players, p.tricksWon = 0 →
      p ∉ (handleRoundEnd g choice).1.players) ∧
    (∀ p ∈ g.players, 0 < p.tricksWon →
      p ∈ (handleRoundEnd g choice).1.players) ∧
    ((g.players.filter (fun p => !(p.tricksWon == 0))).length ≤ 1 ∨
        g.currentRound ≤ 1 →
      (handleRoundEnd g choice).1.state = Phase.finished ∧
      (handleRoundEnd g choice).2 =
        ((g.players.filter (fun p => !(p.tricksWon == 0))).head?).map
          (fun p => p.pid)) ∧
    (¬ ((g.players.filter (fun p => !(p.tricksWon == 0))).length ≤ 1 ∨
        g.currentRound ≤ 1) →
      (handleRoundEnd g choice).1.currentRound = g.currentRound - 1 ∧
      (handleRoundEnd g choice).1.currentRound < g.currentRound ∧
      (handleRoundEnd g choice).1.trumpSuit = none ∧
      ∃ caller ∈ g.players.filter (fun p => !(p.tricksWon == 0)),
        (handleRoundEnd g choice).1.trumpCaller = some caller.pid ∧
        (handleRoundEnd g choice).1.currentPlayer = some caller.pid ∧
        (handleRoundEnd g choice).1.trickStarter = some caller.pid ∧
        (∀ q ∈ g.players.filter (fun p => !(p.tricksWon == 0)),
          q.tricksWon ≤ caller.tricksWon)) := by
  have hre : handleRoundEnd g choice =
      (if (g.players.filter (fun p => !(p.tricksWon == 0))).length ≤ 1 ∨
          g.currentRound ≤ 1 then
        ({ g with
            players := g.players.filter (fun p => !(p.tricksWon == 0)),
            spectators := g.spectators ++
              (g.players.filter (fun p => p.tricksWon == 0)).filter
                (fun p => !p.isAI),
            state := .finished },
          ((g.players.filter (fun p => !(p.tricksWon == 0))).head?).map
            (fun p => p.pid))
       else
        ({ g with
            players := g.players.filter (fun p => !(p.tricksWon == 0)),
            spectators := g.spectators ++
              (g.players.filter (fun p => p.tricksWon == 0)).filter
                (fun p => !p.isAI),
            currentRound := g.currentRound - 1,
            trumpSuit := none,
            currentPlayer := some (((g.players.filter
                (fun p => !(p.tricksWon == 0))).filter
                (fun p => p.tricksWon == pyMaxNat ((g.players.filter
                  (fun p => !(p.tricksWon == 0))).map
                  (fun p => p.tricksWon)))).getD
              (choice % ((g.players.filter
                (fun p => !(p.tricksWon == 0))).filter
                (fun p => p.tricksWon == pyMaxNat ((g.players.filter
                  (fun p => !(p.tricksWon == 0))).map
                  (fun p => p.tricksWon)))).length) ⟨0, false, [], 0⟩).pid,
            trickStarter := some (((g.players.filter
                (fun p => !(p.tricksWon == 0))).filter
                (fun p => p.tricksWon == pyMaxNat ((g.players.filter
                  (fun p => !(p.tricksWon == 0))).map
                  (fun p => p.tricksWon)))).getD
              (choice % ((g.players.filter
                (fun p => !(p.tricksWon == 0))).filter
                (fun p => p.tricksWon == pyMaxNat ((g.players.filter
                  (fun p => !(p.tricksWon == 0))).map
                  (fun p => p.tricksWon)))).length) ⟨0, false, [], 0⟩).pid,
            trumpCaller := some (((g.players.filter
                (fun p => !(p.tricksWon == 0))).filter
                (fun p => p.tricksWon == pyMaxNat ((g.players.filter
                  (fun p => !(p.tricksWon == 0))).map
                  (fun p => p.tricksWon)))).getD
              (choice % ((g.players.filter
                (fun p => !(p.tricksWon == 0))).filter
                (fun p => p.tricksWon == pyMaxNat ((g.players.filter
                  (fun p => !(p.tricksWon == 0))).map
                  (fun p => p.tricksWon)))).length) ⟨0, false, [], 0⟩).pid },
          none)) := by
    simp only [handleRoundEnd, handleRoundEnd_g1]
  have hplayers : (handleRoundEnd g choice).1.players =
      g.players.filter (fun p => !(p.tricksWon == 0)) := by
    rw [hre]
    by_cases hcond : (g.players.filter (fun p => !(p.tricksWon == 0))).length ≤ 1 ∨
        g.currentRound ≤ 1
    · rw [if_pos hcond]
    · rw [if_neg hcond]
  have hspec : (handleRoundEnd g choice).1.spectators =
      g.spectators ++ (g.players.filter (fun p => p.tricksWon == 0)).filter
        (fun p => !p.isAI) := by
    rw [hre]
    by_cases hcond : (g.players.filter (fun p => !(p.tricksWon == 0))).length ≤ 1 ∨
        g.currentRound ≤ 1
    · rw [if_pos hcond]
    · rw [if_neg hcond]
  refine ⟨hplayers, hspec, ?_, ?_, ?_, ?_⟩
  · intro p hp hp0 hmem
    rw [hplayers] at hmem
    have := List.of_mem_filter hmem
    simp [hp0] at this
  · intro p hp hp1
    rw [hplayers]
    exact List.mem_filter_of_mem hp (by simp; omega)
  · intro hcond
    rw [hre, if_pos hcond]
    exact ⟨rfl, rfl⟩
  · intro hcond
    have h2 := not_or.mp hcond
    rw [hre, if_neg hcond]
    refine ⟨rfl, by simp only; omega, rfl, ?_⟩
    have hsne : g.players.filter (fun p => !(p.tricksWon == 0)) ≠ [] := by
      intro he
      rw [he] at h2
      simp at h2
    have hmapne : (g.players.filter (fun p => !(p.tricksWon == 0))).map
        (fun p => p.tricksWon) ≠ [] := by
      simpa using hsne
    obtain ⟨hmm, hmax⟩ := pyMaxNat_spec _ hmapne
    obtain ⟨w, hwmem, hwval⟩ := List.mem_map.mp hmm
    have hchne : (g.players.filter (fun p => !(p.tricksWon == 0))).filter
        (fun p => p.tricksWon == pyMaxNat ((g.players.filter
          (fun p => !(p.tricksWon == 0))).map (fun p => p.tricksWon))) ≠ [] := by
      intro he
      have hw2 : w ∈ (g.players.filter (fun p => !(p.tricksWon == 0))).filter
          (fun p => p.tricksWon == pyMaxNat ((g.players.filter
            (fun p => !(p.tricksWon == 0))).map (fun p => p.tricksWon))) :=
        List.mem_filter_of_mem hwmem (by simp [hwval])
      rw [he] at hw2
      simp at hw2
    have hlen : 0 < ((g.players.filter (fun p => !(p.tricksWon == 0))).filter
        (fun p => p.tricksWon == pyMaxNat ((g.players.filter
          (fun p => !(p.tricksWon == 0))).map (fun p => p.tricksWon)))).length :=
      List.length_pos.mpr hchne
    have hidx := Nat.mod_lt choice hlen
    have hcmem : ((g.players.filter (fun p => !(p.tricksWon == 0))).filter
        (fun p => p.tricksWon == pyMaxNat ((g.players.filter
          (fun p => !(p.tricksWon == 0))).map (fun p => p.tricksWon)))).getD
        (choice % ((g.players.filter (fun p => !(p.tricksWon == 0))).filter
          (fun p => p.tricksWon == pyMaxNat ((g.players.filter
            (fun p => !(p.tricksWon == 0))).map
            (fun p => p.tricksWon)))).length) ⟨0, false, [], 0⟩ ∈
        (g.players.filter (fun p => !(p.tricksWon == 0))).filter
          (fun p => p.tricksWon == pyMaxNat ((g.players.filter
            (fun p => !(p.tricksWon == 0))).map (fun p => p.tricksWon))) := by
      rw [List.getD_eq_get _ _ hidx]
      exact List.get_mem _ _ _
    refine ⟨_, List.mem_of_mem_filter hcmem, rfl, rfl, rfl, ?_⟩
    intro q hq
    have hceq := List.of_mem_filter hcmem
    rw [beq_iff_eq] at hceq
    rw [hceq]
    exact hmax _ (List.mem_map_of_mem _ hq)

theorem handleRoundEnd_players (g : Game) (choice : Nat) :
    (handleRoundEnd g choice).1.players =
      g.players.filter (fun p => !(p.tricksWon == 0)) := by
  simp only [handleRoundEnd, handleRoundEnd_g1]
  by_cases hcond : (g.players.filter (fun p => !(p.tricksWon == 0))).length ≤ 1 ∨
      g.currentRound ≤ 1
  · rw [if_pos hcond]
  · rw [if_neg hcond]

theorem handleRoundEnd_spectators (g : Game) (choice : Nat) :
    (handleRoundEnd g choice).1.spectators =
      g.spectators ++ (g.players.filter (fun p => p.tricksWon == 0)).filter
        (fun p => !p.isAI) := by
  simp only [handleRoundEnd, handleRoundEnd_g1]
  by_cases hcond : (g.players.filter (fun p => !(p.tricksWon == 0))).length ≤ 1 ∨
      g.currentRound ≤ 1
  · rw [if_pos hcond]
  · rw [if_neg hcond]

/-- C10: the spectators list only ever contains humans — round end appends
only human eliminated players to `spectators` and drops eliminated AI
players from the room entirely, and `reset_game` (playAgain) restores only
the spectators, so a dropped AI player never returns. -/
theorem c10_spectators_only_humans (g : Game) (choice : Nat) :
    ((∀ s ∈ g.spectators, s.isAI = false) →
      ∀ s ∈ (handleRoundEnd g choice).1.spectators, s.isAI = false) ∧
    ((∀ s ∈ g.spectators, s.isAI = false) →
      ∀ p ∈ g.players, p.isAI = true → p.tricksWon = 0 →
        p ∉ (handleRoundEnd g choice).1.players ∧
        p ∉ (handleRoundEnd g choice).1.spectators) ∧
    ((resetGame g).players = (g.players ++ g.spectators).map
        (fun p => { p with hand := [], tricksWon := 0 }) ∧
      (resetGame g).spectators = []) ∧
    (∀ p : PlayerR, (∀ q ∈ g.players, q.pid ≠ p.pid) →
      (∀ q ∈ g.spectators, q.pid ≠ p.pid) →
      ∀ q ∈ (resetGame g).players, q.pid ≠ p.pid) := by
  refine ⟨?_, ?_, ⟨rfl, rfl⟩, ?_⟩
  · intro hhum s hs
    rw [handleRoundEnd_spectators] at hs
    rcases List.mem_append.mp hs with h | h
    · exact hhum s h
    · have := List.of_mem_filter h
      simpa using this
  · intro hhum p hp hAI h0
    constructor
    · rw [handleRoundEnd_players]
      intro hmem
      have := List.of_mem_filter hmem
      simp [h0] at this
    · rw [handleRoundEnd_spectators]
      intro hmem
      rcases List.mem_append.mp hmem with h | h
      · have := hhum p h
        rw [hAI] at this
        cases this
      · have := List.of_mem_filter h
        rw [hAI] at this
        simp at this
  · intro p hpl2 hsp2 q hq
    have hq2 : q ∈ (g.players ++ g.spectators).map
        (fun p => { p with hand := [], tricksWon := 0 }) := hq
    obtain ⟨r, hr, hrq⟩ := List.mem_map.mp hq2
    intro heq
    have hrp : r.pid = q.pid := by rw [← hrq]
    rcases List.mem_append.mp hr with h | h
    · exact hpl2 r h (by rw [hrp, heq])
    · exact hsp2 r h (by rw [hrp, heq])

/-- Witness for C3: the S5 scenario — tricks (4, 3, 0), round 7: Carol is
eliminated, the round becomes 6, trump is cleared and the top scorer leads. -/
theorem c3_handle_round_end_witness :
    (handleRoundEnd wGame3 0).1.currentRound = wGame3.currentRound - 1 ∧
    (handleRoundEnd wGame3 0).1.currentRound < wGame3.currentRound ∧
    (handleRoundEnd wGame3 0).1.trumpSuit = none ∧
    ∃ caller ∈ wGame3.players.filter (fun p => !(p.tricksWon == 0)),
      (handleRoundEnd wGame3 0).1.trumpCaller = some caller.pid ∧
      (handleRoundEnd wGame3 0).1.currentPlayer = some caller.pid ∧
      (handleRoundEnd wGame3 0).1.trickStarter = some caller.pid ∧
      (∀ q ∈ wGame3.players.filter (fun p => !(p.tricksWon == 0)),
        q.tricksWon ≤ caller.tricksWon) :=
  (c3_handle_round_end wGame3 0).2.2.2.2.2 (by decide)

/-- Witness for C10: an eliminated zero-trick AI player is absent from both
lists after round end in the concrete room `wGame10`. -/
theorem c10_spectators_only_humans_witness :
    (⟨9, true, [], 0⟩ : PlayerR) ∉ (handleRoundEnd wGame10 0).1.players ∧
    (⟨9, true, [], 0⟩ : PlayerR) ∉ (handleRoundEnd wGame10 0).1.spectators :=
  (c10_spectators_only_humans wGame10 0).2.1 (by decide)
    ⟨9, true, [], 0⟩ (by decide) rfl rfl

/-- Witness for C2: in the concrete room `wGame4` it is player 1's turn, so
player 2's attempt to play is rejected with "Not your turn" and produces no
successor state. -/
theorem c2_validate_play_witness :
    playCardStep wGame4 wQ4 (Card.mk '♠' 12) = Except.error "Not your turn" :=
  (c2_validate_play wGame4 wQ4 (Card.mk '♠' 12)).2.2.2.2.2.2
    "Not your turn" (by decide)

/-- C7 counterexample: a malformed-JSON frame makes the connection handler
crash (`json.loads` raises outside any try/except for it) with no error
reply, a bad card string likewise escapes as `KeyError`, and an
unknown-type message from a room participant is silently ignored — all
contradicting the claimed `{type:"error"}` reply with the connection kept
open. -/
theorem c7_dispatch_counterexample :
    (dispatchMessage wGame4 wP4 ClientMsg.malformedJson).1 = Outcome.crashed ∧
    (∀ msg, (dispatchMessage wGame4 wP4 ClientMsg.malformedJson).1 ≠
      Outcome.errorReply msg) ∧
    (dispatchMessage wGame4 wP4 (ClientMsg.playCardMsg "Z♠")).1 =
      Outcome.crashed ∧
    (dispatchMessage wGame4 wP4 ClientMsg.unknownType).1 = Outcome.noReply := by
  refine ⟨rfl, ?_, by decide, rfl⟩
  intro msg h
  exact Outcome.noConfusion h

/-- C7 (amended): room state is unchanged by every rejected or unhandled
message, but the replies differ from the claim: malformed JSON and
unparseable card strings crash the connection handler with no reply (the
exceptions are not `GameError` and nothing catches them), an unknown type
from a room participant falls through the dispatch chain silently, and only
`GameError` failures of the in-game handlers are answered with
`{type:"error"}` to the originating socket. -/
theorem c7_dispatch_amended (g : Game) (p : PlayerR) :
    (dispatchMessage g p ClientMsg.malformedJson = (Outcome.crashed, g)) ∧
    (dispatchMessage g p ClientMsg.unknownType = (Outcome.noReply, g)) ∧
    (∀ s, fromString s = none →
      dispatchMessage g p (ClientMsg.playCardMsg s) = (Outcome.crashed, g)) ∧
    (∀ s c e, fromString s = some c → playCardStep g p c = Except.error e →
      dispatchMessage g p (ClientMsg.playCardMsg s) = (Outcome.errorReply e, g)) ∧
    (∀ suit e, handleTrumpSelection g p suit = Except.error e →
      dispatchMessage g p (ClientMsg.callTrumpsMsg suit) =
        (Outcome.errorReply e, g)) := by
  refine ⟨rfl, rfl, ?_, ?_, ?_⟩
  · intro s hs
    show (match fromString s with
      | none => (Outcome.crashed, g)
      | some c =>
        match playCardStep g p c with
        | Except.error e => (Outcome.errorReply e, g)
        | Except.ok g2 => (Outcome.applied, g2)) = (Outcome.crashed, g)
    rw [hs]
  · intro s c e hs hp
    show (match fromString s with
      | none => (Outcome.crashed, g)
      | some c =>
        match playCardStep g p c with
        | Except.error e => (Outcome.errorReply e, g)
        | Except.ok g2 => (Outcome.applied, g2)) = (Outcome.errorReply e, g)
    rw [hs]
    show (match playCardStep g p c with
      | Except.error e => (Outcome.errorReply e, g)
      | Except.ok g2 => (Outcome.applied, g2)) = (Outcome.errorReply e, g)
    rw [hp]
  · intro suit e hts
    show (match handleTrumpSelection g p suit with
      | Except.error e => (Outcome.errorReply e, g)
      | Except.ok g2 => (Outcome.applied, g2)) = (Outcome.errorReply e, g)
    rw [hts]

/-- Witness for C7 (amended): the bad card string `"Z♠"` crashes the
handler leaving the concrete room unchanged. -/
theorem c7_dispatch_amended_witness :
    dispatchMessage wGame4 wP4 (ClientMsg.playCardMsg "Z♠") =
      (Outcome.crashed, wGame4) :=
  (c7_dispatch_amended wGame4 wP4).2.2.1 "Z♠" (by decide)

theorem removeFirstCard_subset (hand : List PCard) (c : Card) :
    ∀ hc ∈ removeFirstCard hand c, hc ∈ hand := by
  induction hand with
  | nil => intro hc h; simp [removeFirstCard] at h
  | cons x xs ih =>
    intro hc h
    unfold removeFirstCard at h
    by_cases hx : (x.card.suit == c.suit && x.card.rank == c.rank) = true
    · rw [if_pos hx] at h
      exact List.mem_cons_of_mem _ h
    · rw [if_neg hx] at h
      rcases List.mem_cons.mp h with h2 | h2
      · rw [h2]; exact List.mem_cons_self _ _
      · exact List.mem_cons_of_mem _ (ih hc h2)

theorem assignCids_bounds (l : List Card) :
    ∀ cid, ∀ hc ∈ assignCids cid l, cid ≤ hc.cid ∧ hc.cid < cid + l.length := by
  induction l with
  | nil => intro cid hc h; simp [assignCids] at h
  | cons c cs ih =>
    intro cid hc h
    rcases List.mem_cons.mp h with h2 | h2
    · rw [h2]
      exact ⟨le_refl _, by simp⟩
    · obtain ⟨h3, h4⟩ := ih (cid + 1) hc h2
      refine ⟨by omega, ?_⟩
      simp only [List.length_cons]
      omega

theorem dealHands_le (n : Nat) (ps : List PlayerR) :
    ∀ cid deck, cid ≤ (dealHands cid n deck ps).2 := by
  induction ps with
  | nil => intro cid deck; exact le_refl _
  | cons p rest ih =>
    intro cid deck
    have h1 := ih (cid + n) (deck.drop n)
    show cid ≤ (dealHands (cid + n) n (deck.drop n) rest).2
    omega

theorem dealHands_hand_bounds (n : Nat) (ps : List PlayerR) :
    ∀ cid deck, ∀ q ∈ (dealHands cid n deck ps).1, ∀ hc ∈ q.hand,
      cid ≤ hc.cid ∧ hc.cid < (dealHands cid n deck ps).2 := by
  induction ps with
  | nil => intro cid deck q hq; simp [dealHands] at hq
  | cons p rest ih =>
    intro cid deck q hq hc hhc
    have hq2 : q ∈ ({ p with hand := assignCids cid (deck.take n), tricksWon := 0 } ::
        (dealHands (cid + n) n (deck.drop n) rest).1) := hq
    have h2tail : (dealHands cid n deck (p :: rest)).2 =
        (dealHands (cid + n) n (deck.drop n) rest).2 := rfl
    rcases List.mem_cons.mp hq2 with h2 | h2
    · rw [h2] at hhc
      obtain ⟨ha, hb⟩ := assignCids_bounds _ cid hc hhc
      have hlen : (deck.take n).length ≤ n := by
        rw [List.length_take]
        omega
      have hle := dealHands_le n rest (cid + n) (deck.drop n)
      rw [h2tail]
      exact ⟨ha, by omega⟩
    · have h3 := ih (cid + n) (deck.drop n) q h2 hc hhc
      rw [h2tail]
      exact ⟨by omega, h3.2⟩

theorem inv_transfer (g g2 : Game)
    (hn : g.nextCid ≤ g2.nextCid)
    (htrick : ∀ pl ∈ g2.currentTrick, pl ∈ g.currentTrick ∨
      (g.nextCid ≤ pl.2.cid ∧ pl.2.cid < g2.nextCid))
    (hhands : ∀ q ∈ participants g2, ∀ hc ∈ q.hand,
      (∃ q0 ∈ participants g, hc ∈ q0.hand) ∨
      (g.nextCid ≤ hc.cid ∧ hc.cid < g2.nextCid))
    (hsep : (∀ pl ∈ g2.currentTrick, pl ∈ g.currentTrick) ∨
      (∀ q ∈ participants g2, ∀ hc ∈ q.hand,
        ∃ q0 ∈ participants g, hc ∈ q0.hand))
    (hinv : CidsFresh g ∧ TrickHandDisjoint g) :
    CidsFresh g2 ∧ TrickHandDisjoint g2 := by
  obtain ⟨⟨hf1, hf2⟩, hd⟩ := hinv
  refine ⟨⟨?_, ?_⟩, ?_⟩
  · intro pl hpl
    rcases htrick pl hpl with h | h
    · exact lt_of_lt_of_le (hf1 pl h) hn
    · exact h.2
  · intro q hq hc hhc
    rcases hhands q hq hc hhc with ⟨q0, hq0, hc0⟩ | h
    · exact lt_of_lt_of_le (hf2 q0 hq0 hc hc0) hn
    · exact h.2
  · intro pl hpl q hq hc hhc
    rcases hsep with hs | hs
    · have hplo := hs pl hpl
      rcases hhands q hq hc hhc with ⟨q0, hq0, hc0⟩ | hnew
      · exact hd pl hplo q0 hq0 hc hc0
      · have h1 := hf1 pl hplo
        omega
    · obtain ⟨q0, hq0, hc0⟩ := hs q hq hc hhc
      rcases htrick pl hpl with hplo | hplnew
      · exact hd pl hplo q0 hq0 hc hc0
      · have h1 := hf2 q0 hq0 hc hc0
        omega

theorem inv_clear_trick (g g2 : Game)
    (hp : participants g2 = participants g)
    (ht : g2.currentTrick = [])
    (hn : g2.nextCid = g.nextCid)
    (hinv : CidsFresh g ∧ TrickHandDisjoint g) :
    CidsFresh g2 ∧ TrickHandDisjoint g2 := by
  obtain ⟨⟨hf1, hf2⟩, hd⟩ := hinv
  refine ⟨⟨?_, ?_⟩, ?_⟩
  · intro pl hpl
    rw [ht] at hpl
    simp at hpl
  · intro q hq hc hhc
    rw [hp] at hq
    rw [hn]
    exact hf2 q hq hc hhc
  · intro pl hpl
    rw [ht] at hpl
    simp at hpl

theorem handleRoundEnd_trick (g : Game) (choice : Nat) :
    (handleRoundEnd g choice).1.currentTrick = g.currentTrick := by
  simp only [handleRoundEnd, handleRoundEnd_g1]
  by_cases hcond : (g.players.filter (fun p => !(p.tricksWon == 0))).length ≤ 1 ∨
      g.currentRound ≤ 1
  · rw [if_pos hcond]
  · rw [if_neg hcond]

theorem handleRoundEnd_nextCid (g : Game) (choice : Nat) :
    (handleRoundEnd g choice).1.nextCid = g.nextCid := by
  simp only [handleRoundEnd, handleRoundEnd_g1]
  by_cases hcond : (g.players.filter (fun p => !(p.tricksWon == 0))).length ≤ 1 ∨
      g.currentRound ≤ 1
  · rw [if_pos hcond]
  · rw [if_neg hcond]

theorem inv_dealCards (g : Game) (deck : List Card)
    (hinv : CidsFresh g ∧ TrickHandDisjoint g) :
    CidsFresh (dealCards g deck) ∧ TrickHandDisjoint (dealCards g deck) := by
  unfold dealCards
  by_cases hshort : deck.length < g.currentRound * g.players.length
  · rw [if_pos hshort]
    exact hinv
  · rw [if_neg hshort]
    apply inv_transfer g _ (dealHands_le _ _ _ _)
    · intro pl hpl
      exact Or.inl hpl
    · intro q hq hc hhc
      have hq2 : q ∈ (dealHands g.nextCid g.currentRound deck g.players).1 ++
          g.spectators := hq
      rcases List.mem_append.mp hq2 with h2 | h2
      · exact Or.inr (dealHands_hand_bounds _ _ _ _ q h2 hc hhc)
      · exact Or.inl ⟨q, List.mem_append.mpr (Or.inr h2), hhc⟩
    · exact Or.inl (fun pl hpl => hpl)
    · exact hinv

theorem inv_startTrumpSelection (g : Game) (deck : List Card) (tc : Char)
    (sc : Nat) (hinv : CidsFresh g ∧ TrickHandDisjoint g) :
    CidsFresh (startTrumpSelection g deck tc sc) ∧
    TrickHandDisjoint (startTrumpSelection g deck tc sc) := by
  have hinv0 : CidsFresh { g with state := Phase.callingTrumps } ∧
      TrickHandDisjoint { g with state := Phase.callingTrumps } := hinv
  have hinv1 := inv_dealCards { g with state := Phase.callingTrumps } deck hinv0
  unfold startTrumpSelection
  by_cases h7 : (dealCards { g with state := Phase.callingTrumps } deck).currentRound == 7
  · rw [if_pos h7]
    cases hst : (dealCards { g with state := Phase.callingTrumps } deck).players.get?
        (sc % (dealCards { g with state := Phase.callingTrumps } deck).players.length) with
    | none => exact hinv1
    | some st =>
      exact inv_clear_trick (dealCards { g with state := Phase.callingTrumps } deck)
        ({ dealCards { g with state := Phase.callingTrumps } deck with
            trumpSuit := some tc, state := Phase.playing, currentTrick := [],
            currentPlayer := some st.pid, trickStarter := some st.pid })
        rfl rfl rfl hinv1
  · rw [if_neg h7]
    exact hinv1

theorem inv_handleTrumpSelection (g : Game) (p : PlayerR) (suit : Char)
    (g2 : Game) (h : handleTrumpSelection g p suit = Except.ok g2)
    (hinv : CidsFresh g ∧ TrickHandDisjoint g) :
    CidsFresh g2 ∧ TrickHandDisjoint g2 := by
  unfold handleTrumpSelection at h
  split_ifs at h
  injection h with h
  rw [← h]
  exact inv_clear_trick g _ rfl rfl rfl hinv

theorem inv_playCardStep (g : Game) (p : PlayerR) (c : Card) (g2 : Game)
    (hp : p ∈ g.players) (h : playCardStep g p c = Except.ok g2)
    (hinv : CidsFresh g ∧ TrickHandDisjoint g) :
    CidsFresh g2 ∧ TrickHandDisjoint g2 := by
  cases hv : validatePlay g p c with
  | some e =>
    exfalso
    unfold playCardStep at h
    rw [hv] at h
    cases h
  | none =>
    unfold playCardStep at h
    rw [hv] at h
    injection h with h
    rw [← h]
    have hhands : ∀ q ∈ participants { g with
        players := g.players.map (fun q =>
          if q.pid = p.pid then { p with hand := removeFirstCard p.hand c } else q),
        spectators := g.spectators.map (fun q =>
          if q.pid = p.pid then { p with hand := removeFirstCard p.hand c } else q),
        currentTrick := g.currentTrick ++ [(p.pid, ⟨g.nextCid, c⟩)],
        currentPlayer := (nextPlayer (g.players.map (fun q =>
          if q.pid = p.pid then { p with hand := removeFirstCard p.hand c } else q))
          { p with hand := removeFirstCard p.hand c }).map (fun q => q.pid),
        nextCid := g.nextCid + 1 },
        ∀ hc ∈ q.hand, ∃ q0 ∈ participants g, hc ∈ q0.hand := by
      intro q hq hc hhc
      have hq2 : q ∈ g.players.map (fun q =>
          if q.pid = p.pid then { p with hand := removeFirstCard p.hand c } else q) ++
          g.spectators.map (fun q =>
            if q.pid = p.pid then { p with hand := removeFirstCard p.hand c } else q) := hq
      have hcase : ∃ q0, (q0 ∈ participants g) ∧
          q = (if q0.pid = p.pid then { p with hand := removeFirstCard p.hand c }
            else q0) := by
        rcases List.mem_append.mp hq2 with h2 | h2
        · obtain ⟨q0, hq0, he⟩ := List.mem_map.mp h2
          exact ⟨q0, List.mem_append.mpr (Or.inl hq0), he.symm⟩
        · obtain ⟨q0, hq0, he⟩ := List.mem_map.mp h2
          exact ⟨q0, List.mem_append.mpr (Or.inr hq0), he.symm⟩
      obtain ⟨q0, hq0, he⟩ := hcase
      by_cases hpid : q0.pid = p.pid
      · rw [he, if_pos hpid] at hhc
        exact ⟨p, List.mem_append.mpr (Or.inl hp),
          removeFirstCard_subset p.hand c hc hhc⟩
      · rw [he, if_neg hpid] at hhc
        exact ⟨q0, hq0, hhc⟩
    apply inv_transfer g _ (Nat.le_succ g.nextCid)
    · intro pl hpl
      have hpl2 : pl ∈ g.currentTrick ++ [(p.pid, (⟨g.nextCid, c⟩ : PCard))] := hpl
      rcases List.mem_append.mp hpl2 with h2 | h2
      · exact Or.inl h2
      · have he2 : pl = (p.pid, (⟨g.nextCid, c⟩ : PCard)) := by simpa using h2
        rw [he2]
        exact Or.inr ⟨le_refl _, Nat.lt_succ_self _⟩
    · intro q hq hc hhc
      exact Or.inl (hhands q hq hc hhc)
    · exact Or.inr hhands
    · exact hinv

theorem inv_handleTrickCompletion (g : Game)
    (hinv : CidsFresh g ∧ TrickHandDisjoint g) :
    CidsFresh (handleTrickCompletion g) ∧
    TrickHandDisjoint (handleTrickCompletion g) := by
  unfold handleTrickCompletion
  cases hw : determineWinner g.trumpSuit
      (g.currentTrick.map (fun pl => (pl.1, pl.2.card))) with
  | none => exact hinv
  | some wpid =>
    obtain ⟨⟨hf1, hf2⟩, hd⟩ := hinv
    refine ⟨⟨?_, ?_⟩, ?_⟩
    · intro pl hpl
      simp at hpl
    · intro q hq hc hhc
      have hq2 : q ∈ g.players.map (fun q =>
          if q.pid = wpid then { q with tricksWon := q.tricksWon + 1 } else q) ++
          g.spectators := hq
      rcases List.mem_append.mp hq2 with h2 | h2
      · obtain ⟨q0, hq0, he⟩ := List.mem_map.mp h2
        have hhand : q.hand = q0.hand := by
          rw [← he]
          by_cases hpid : q0.pid = wpid
          · rw [if_pos hpid]
          · rw [if_neg hpid]
        rw [hhand] at hhc
        exact hf2 q0 (List.mem_append.mpr (Or.inl hq0)) hc hhc
      · exact hf2 q (List.mem_append.mpr (Or.inr h2)) hc hhc
    · intro pl hpl
      simp at hpl

theorem inv_handleRoundEnd (g : Game) (choice : Nat)
    (hinv : CidsFresh g ∧ TrickHandDisjoint g) :
    CidsFresh (handleRoundEnd g choice).1 ∧
    TrickHandDisjoint (handleRoundEnd g choice).1 := by
  apply inv_transfer g _ (le_of_eq (handleRoundEnd_nextCid g choice).symm)
  · intro pl hpl
    rw [handleRoundEnd_trick] at hpl
    exact Or.inl hpl
  · intro q hq hc hhc
    have hq2 : q ∈ (handleRoundEnd g choice).1.players ++
        (handleRoundEnd g choice).1.spectators := hq
    rw [handleRoundEnd_players, handleRoundEnd_spectators] at hq2
    rcases List.mem_append.mp hq2 with h2 | h2
    · exact Or.inl ⟨q, List.mem_append.mpr
        (Or.inl (List.mem_of_mem_filter h2)), hhc⟩
    · rcases List.mem_append.mp h2 with h3 | h3
      · exact Or.inl ⟨q, List.mem_append.mpr (Or.inr h3), hhc⟩
      · exact Or.inl ⟨q, List.mem_append.mpr
          (Or.inl (List.mem_of_mem_filter (List.mem_of_mem_filter h3))), hhc⟩
  · refine Or.inl ?_
    intro pl hpl
    rw [handleRoundEnd_trick] at hpl
    exact hpl
  · exact hinv

theorem inv_resetGame (g : Game)
    (_hinv : CidsFresh g ∧ TrickHandDisjoint g) :
    CidsFresh (resetGame g) ∧ TrickHandDisjoint (resetGame g) := by
  refine ⟨⟨?_, ?_⟩, ?_⟩
  · intro pl hpl
    simp [resetGame] at hpl
  · intro q hq hc hhc
    have hq2 : q ∈ (g.players ++ g.spectators).map
        (fun p => { p with hand := [], tricksWon := 0 }) ++ ([] : List PlayerR) := hq
    rcases List.mem_append.mp hq2 with h2 | h2
    · obtain ⟨q0, hq0, he⟩ := List.mem_map.mp h2
      rw [← he] at hhc
      simp at hhc
    · simp at h2
  · intro pl hpl
    simp [resetGame] at hpl

theorem inv_addPlayer (g : Game) (p : PlayerR) (hp : p.hand = [])
    (hinv : CidsFresh g ∧ TrickHandDisjoint g) :
    CidsFresh { g with players := g.players ++ [p] } ∧
    TrickHandDisjoint { g with players := g.players ++ [p] } := by
  refine inv_transfer g _ (le_refl _) ?_ ?_ ?_ hinv
  · intro pl hpl
    exact Or.inl hpl
  · intro q hq hc hhc
    have hq2 : q ∈ (g.players ++ [p]) ++ g.spectators := hq
    rcases List.mem_append.mp hq2 with h2 | h2
    · rcases List.mem_append.mp h2 with h3 | h3
      · exact Or.inl ⟨q, List.mem_append.mpr (Or.inl h3), hhc⟩
      · have he : q = p := by simpa using h3
        rw [he, hp] at hhc
        simp at hhc
    · exact Or.inl ⟨q, List.mem_append.mpr (Or.inr h2), hhc⟩
  · exact Or.inl (fun pl hpl => hpl)

theorem reachable_inv (g : Game) (h : Reachable g) :
    CidsFresh g ∧ TrickHandDisjoint g := by
  induction h with
  | init =>
    refine ⟨⟨?_, ?_⟩, ?_⟩
    · intro pl hpl
      simp [initGame] at hpl
    · intro q hq
      have hq2 : q ∈ ([] : List PlayerR) ++ [] := hq
      simp at hq2
    · intro pl hpl
      simp [initGame] at hpl
  | step hr hs ih =>
    cases hs with
    | addPlayer p hp => exact inv_addPlayer _ p hp ih
    | startSel deck tc sc => exact inv_startTrumpSelection _ deck tc sc ih
    | callTrumps p suit g2x h2 => exact inv_handleTrumpSelection _ p suit _ h2 ih
    | play p c g2x hp h2 => exact inv_playCardStep _ p c _ hp h2 ih
    | trickComplete => exact inv_handleTrickCompletion _ ih
    | roundEnd choice => exact inv_handleRoundEnd _ choice ih
    | reset => exact inv_resetGame _ ih

/-- C9: in every room state reachable through the public operations no card
object in the current trick is simultaneously present in any participant's
hand (card objects are identified by their allocation id `cid`; by value the
statement would fail under multi-deck duplicates). -/
theorem c9_trick_not_in_hands (g : Game) (h : Reachable g) :
    TrickHandDisjoint g :=
  (reachable_inv g h).2

/-- Witness for C9: the invariant at a concrete reachable state — a fresh
room joined by one player. -/
theorem c9_trick_not_in_hands_witness :
    TrickHandDisjoint { initGame with
      players := initGame.players ++ [⟨1, false, [], 0⟩] } :=
  c9_trick_not_in_hands _
    (Reachable.step Reachable.init (Step.addPlayer initGame ⟨1, false, [], 0⟩ rfl))
